import Mathlib

/-!
Verification development for the NLU core of the Leon repository
(`src/server/src/core/nlp/nlu/nlu.ts`).

The TypeScript class `NLU` is shallowly embedded: pure computations become
Lean functions, the mutable instance state (`conv`, `nluResultObj`, the three
classifier fields) becomes an explicit state record threaded through the
functions, exterior collaborators (the nlp.js classifiers, the NER gateway,
the Brain executor, the clock) become oracle fields of an `Env` record, and
user-visible side effects (spoken phrases, socket emissions, process
management) are collected in an event trace.  JavaScript `undefined`/`null`
string values are modelled with `Option String`; classifier scores are
modelled with `Rat`; an uncaught exception inside the promise executor of
`process` (which leaves the promise forever pending) is modelled by the
outcome `unsettled`.

The `Conversation` class is not part of the provided sources; its operations
are modelled from the spec (section 4.3) and are marked as such.
-/

set_option maxHeartbeats 1000000

namespace Leon

/-! ### String helpers mirroring the JavaScript operations used in nlu.ts -/

/-- JS template-literal rendering of a possibly-`undefined` string:
`${x}` prints `"undefined"` when `x` is `undefined`. -/
def jsStr : Option String → String
  | some s => s
  | none => "undefined"

/-- JS `s.split('.')[0]`: the characters before the first `'.'`. -/
def splitHead (s : String) : String := ⟨s.data.takeWhile (· ≠ '.')⟩

/-- JS `s.split('.')[1]`: `none` models the JS `undefined` obtained when the
string contains no `'.'`. -/
def splitSecond (s : String) : Option String :=
  match s.data.dropWhile (· ≠ '.') with
  | [] => none
  | _ :: rest => some ⟨rest.takeWhile (· ≠ '.')⟩

/-- Char-list prefix test. -/
def charStartsWith : List Char → List Char → Bool
  | _, [] => true
  | [], _ :: _ => false
  | c :: cs, d :: ds => c = d && charStartsWith cs ds

/-- Char-list substring occurrence test. -/
def charContainsSub : List Char → List Char → Bool
  | l, sub =>
    if charStartsWith l sub then true
    else match l with
      | [] => false
      | _ :: cs => charContainsSub cs sub

/-- JS `s.indexOf(sub) !== -1` (also `s.includes(sub)`). -/
def jsIncludes (s sub : String) : Bool := charContainsSub s.data sub.data

/-- JS `s.substring(s.lastIndexOf('.') + 1)`. -/
def lastSegment (s : String) : String := ⟨(s.data.reverse.takeWhile (· ≠ '.')).reverse⟩

/-- Association lookup modelling a JS object property read `o[k]`
(`none` models `undefined`). -/
def jsGet {α : Type} (l : List (String × α)) (k : String) : Option α :=
  (l.find? (fun p => p.1 = k)).map (·.2)

/-! ### Data model -/

/-- An extracted named entity.  Only the fields the core inspects are kept:
`entity` is the entity name (`({ entity }) => ...` destructurings), `value`
stands for the payload recorded into slots. -/
structure Entity where
  entity : String
  value : String
deriving DecidableEq, Repr

/-- A resolved resolver `{name, value}` (nlu.ts `resolveResolvers`). -/
structure ResolverMatch where
  name : String
  value : String
deriving DecidableEq, Repr

/-- Modelled from the spec (section 3): a slot of the conversation's slot
ledger, `slotName → Slot{expectedEntity, pickedQuestion, isFilled, value}`.
(The `Conversation` class holding slots is not in the provided sources.) -/
structure Slot where
  expectedEntity : String
  pickedQuestion : String
  isFilled : Bool
  value : Option String
deriving DecidableEq, Repr

/-- The `classification` sub-object of an NLU result.  `confidence` is
`Option Rat` because `slotFill` builds a classification object literal with
no `confidence` key (JS `undefined`). -/
structure Classification where
  domain : Option String
  skill : Option String
  action : Option String
  confidence : Option Rat
deriving DecidableEq, Repr

/-- A skill config file path `skills/{domain}/{skill}/config/{lang}.json`
built with `path.join`.  The join itself is opaque to the core, so the path
is kept structurally. -/
structure ConfigPath where
  domain : Option String
  skill : Option String
  lang : String
deriving DecidableEq, Repr

/-- The `NLUResult` object (nlu.ts `defaultNluResultObj` shape). -/
structure NLUResult where
  utterance : Option String
  currentEntities : List Entity
  entities : List Entity
  currentResolvers : List ResolverMatch
  resolvers : List ResolverMatch
  slots : Option (List (String × Slot))
  configDataFilePath : Option ConfigPath
  answers : List String
  classification : Classification
deriving DecidableEq, Repr

/-- Object `defaultNluResultObj` from nlu.ts. -/
def defaultNluResultObj : NLUResult :=
  { utterance := none
    currentEntities := []
    entities := []
    currentResolvers := []
    resolvers := []
    slots := none
    configDataFilePath := none
    answers := []
    classification :=
      { domain := none, skill := none, action := none, confidence := some 0 } }

/-! ### Fallback matcher (nlu.ts `fallback`, lines 828-856) -/

/-- One entry of the language's fallback table
(`langs[...].fallbacks`: `{words, domain, skill, action}`). -/
structure FallbackEntry where
  words : List String
  domain : String
  skill : String
  action : String
deriving DecidableEq, Repr

/-- Split of a char list at every occurrence of the separator char
(JS single-character `split`). -/
def splitAtChar (sep : Char) : List Char → List (List Char)
  | [] => [[]]
  | c :: cs =>
    let r := splitAtChar sep cs
    if c = sep then [] :: r
    else
      match r with
      | [] => [[c]]
      | h :: t => (c :: h) :: t

/-- JS lowercasing (agrees with `String.prototype.toLowerCase` on the ASCII
range the fallback tables use). -/
def jsToLower (s : String) : String := ⟨s.data.map Char.toLower⟩

/-- Tokenization `this.nluResultObj.utterance.toLowerCase().split(' ')`. -/
def utteranceWords (u : String) : List String :=
  (splitAtChar ' ' (jsToLower u).data).map (fun l => ⟨l⟩)

/-- The NLU result produced when fallback entry `fb` matches: the source
mutates `this.nluResultObj` in place (`entities = []`, classification fields
from the entry, `confidence = 1`) and returns it. -/
def fallbackHit (nlu : NLUResult) (fb : FallbackEntry) : NLUResult :=
  { nlu with
    entities := []
    classification :=
      { nlu.classification with
        domain := some fb.domain
        skill := some fb.skill
        action := some fb.action
        confidence := some 1 } }

/-- The `for` loops of `fallback`: `tmpWords` is declared outside the loop
over the fallback entries, so the words of each entry that occur in the
utterance accumulate across entries; entry `i` matches iff the accumulated
list equals `fallbacks[i].words` (`JSON.stringify` comparison of string
arrays, i.e. list equality). -/
def fallbackLoop (words : List String) (nlu : NLUResult) :
    List String → List FallbackEntry → Option NLUResult
  | _, [] => none
  | tmpWords, fb :: rest =>
    let tmpWords2 := tmpWords ++ fb.words.filter (fun w => words.contains w)
    if tmpWords2 = fb.words then some (fallbackHit nlu fb)
    else fallbackLoop words nlu tmpWords2 rest

/-- Function `fallback(fallbacks)` from nlu.ts.  `none` models the source's
`return false` ("not matched").  The source's outer
`if (fallbacks.length > 0)` guard is subsumed by `fallbackLoop _ _ _ [] = none`.
When `nlu.utterance` is `null` the source would throw on `.toLowerCase()`;
`process` always sets the utterance before calling `fallback`, and that case
is modelled as "not matched". -/
def fallback (nlu : NLUResult) (fallbacks : List FallbackEntry) : Option NLUResult :=
  match nlu.utterance with
  | none => none
  | some u => fallbackLoop (utteranceWords u) nlu [] fallbacks

/-- The fallback semantics exactly as claim C2 words it (first entry, in
declaration order, all of whose words appear in the utterance token set),
kept separate so it can be compared with the source-derived `fallback`. -/
def fallbackSpec (nlu : NLUResult) (fallbacks : List FallbackEntry) : Option NLUResult :=
  match nlu.utterance with
  | none => none
  | some u =>
    let words := utteranceWords u
    match fallbacks.find? (fun fb => fb.words.all (fun w => words.contains w)) with
    | some fb => some (fallbackHit nlu fb)
    | none => none

/-- An entry either has all of its words in the utterance token list or none
of them (no partial overlap). -/
def allOrNone (words : List String) (fb : FallbackEntry) : Prop :=
  (∀ w ∈ fb.words, w ∈ words) ∨ (∀ w ∈ fb.words, w ∉ words)

instance (words : List String) (fb : FallbackEntry) : Decidable (allOrNone words fb) := by
  unfold allOrNone; infer_instance

/-! ### Conversation store

The `Conversation` class (`@/core/conversation`) is not part of the provided
sources; only its call sites in nlu.ts are.  Its operations are modelled
from the spec, section 4.3, as explicit functions over an
`Option ActiveContext` state (`none` models the store's empty `{}` context). -/

/-- The active context (spec section 3 "ActiveContext").  `nextAction` holds
the next action's name: nlu.ts reads `this.conv.activeContext.nextAction`
and uses it directly as `classification.action` in `slotFill`; how the
store populates it is internal to the missing `Conversation` class, so it is
kept as an arbitrary field. -/
structure ActiveContext where
  lang : String
  slots : List (String × Slot)
  isInActionLoop : Bool
  originalUtterance : Option String
  configDataFilePath : Option ConfigPath
  actionName : Option String
  domain : Option String
  intent : String
  entities : List Entity
  currentEntities : List Entity
  nextAction : Option String
deriving DecidableEq, Repr

/-- Modelled from the spec: `ActiveContext.name = "{domain}.{skill}"`
(derived); the skill is the first component of `intent = "{skill}.{action}"`. -/
def contextName (c : ActiveContext) : String :=
  jsStr c.domain ++ "." ++ splitHead c.intent

/-- Modelled from the spec: `HasActiveContext()`. -/
def hasActiveContext (conv : Option ActiveContext) : Bool := conv.isSome

/-- Modelled from the spec: `CleanActiveContext()`. -/
def cleanActiveContext (_ : Option ActiveContext) : Option ActiveContext := none

/-- Modelled from the spec: `GetNotFilledSlot()` — first unfilled slot in
declaration order. -/
def getNotFilledSlot (c : ActiveContext) : Option (String × Slot) :=
  c.slots.find? (fun p => !p.2.isFilled)

/-- Modelled from the spec: `AreSlotsAllFilled()`. -/
def areSlotsAllFilled (c : ActiveContext) : Bool :=
  c.slots.all (fun p => p.2.isFilled)

/-- Modelled from the spec: `SetSlots(lang, entities)` — every slot whose
`expectedEntity` matches an extracted entity name records that entity's
value and is marked filled. -/
def setSlots (c : ActiveContext) (entities : List Entity) : ActiveContext :=
  { c with
    slots := c.slots.map (fun p =>
      match entities.find? (fun e => e.entity = p.2.expectedEntity) with
      | some e => (p.1, { p.2 with isFilled := true, value := some e.value })
      | none => p) }

/-- Modelled from the spec: `SetActiveContext(ctx)` — "if `ctx.name ≠
current.name`, discard current; else merge (update slots/entities while
preserving `originalUtterance`)", with `currentEntities` = the entities of
the just-received utterance and `entities` = inherited plus current
(spec section 3).  `nextAction` is preserved on a merge (the spec does not
say how the store derives it). -/
def setActiveContext (conv : Option ActiveContext) (ctx : ActiveContext) :
    Option ActiveContext :=
  match conv with
  | none => some { ctx with currentEntities := ctx.entities }
  | some c =>
    if contextName c = contextName ctx then
      some { ctx with
        originalUtterance := c.originalUtterance
        nextAction := c.nextAction
        entities := c.entities ++ ctx.entities
        currentEntities := ctx.entities }
    else some { ctx with currentEntities := ctx.entities }

/-! ### Model loader and readiness (nlu.ts lines 58-224) -/

/-- The value of one of the three classifier fields: the `{}` the constructor
assigns, or the `container.get('nlp')` object assigned inside the loader.
`Object.keys({}).length` is `0`; an `@nlpjs` container's `nlp` object has
own enumerable properties, so its key count is positive. -/
inductive NlpField where
  | emptyObj
  | containerNlp
deriving DecidableEq, Repr

/-- JS `Object.keys(field).length > 0` for the two field shapes above. -/
def objectKeysPos : NlpField → Bool
  | .emptyObj => false
  | .containerNlp => true

/-- The three classifier fields of the `NLU` instance. -/
structure ModelsState where
  globalResolversNlp : NlpField
  skillsResolversNlp : NlpField
  mainNlp : NlpField
deriving DecidableEq, Repr

/-- The constructor state: all three fields are `{}`. -/
def initialModels : ModelsState :=
  { globalResolversNlp := .emptyObj, skillsResolversNlp := .emptyObj, mainNlp := .emptyObj }

/-- Method `hasNlpModels()` (nlu.ts lines 218-224). -/
def hasNlpModels (ms : ModelsState) : Bool :=
  objectKeysPos ms.globalResolversNlp &&
  objectKeysPos ms.skillsResolversNlp &&
  objectKeysPos ms.mainNlp

/-- How one `load*Model` call can go (lines 75-213): the model file is
missing (`fs.existsSync` false: reject, field untouched); container set-up
(`containerBootstrap`/`container.use`) throws before the field assignment
(reject, field untouched); `nlp.load(nlpModel)` throws after
`this.xxxNlp = container.get('nlp')` has already run (reject, field
assigned); or everything succeeds (resolve, field assigned). -/
inductive LoadOutcome where
  | fileMissing
  | containerError
  | loadError
  | loadOk
deriving DecidableEq, Repr

/-- Whether a load reached the field assignment. -/
def reachedAssignment : LoadOutcome → Bool
  | .fileMissing => false
  | .containerError => false
  | .loadError => true
  | .loadOk => true

/-- One `load*Model` call: the resulting field value and whether the promise
resolved. -/
def loadModelStep (f : NlpField) : LoadOutcome → NlpField × Bool
  | .fileMissing => (f, false)
  | .containerError => (f, false)
  | .loadError => (.containerNlp, false)
  | .loadOk => (.containerNlp, true)

/-- Method `loadNLPModels()` (lines 58-70): the three loads run under
`Promise.all`, which fulfills iff all three resolve. -/
def loadNLPModels (ms : ModelsState) (og os om : LoadOutcome) : ModelsState × Bool :=
  let (g, bg) := loadModelStep ms.globalResolversNlp og
  let (s, bs) := loadModelStep ms.skillsResolversNlp os
  let (m, bm) := loadModelStep ms.mainNlp om
  ({ globalResolversNlp := g, skillsResolversNlp := s, mainNlp := m }, bg && bs && bm)

/-! ### Events and the language switcher -/

/-- User-visible side effects and external actions, in emission order. -/
inductive Event where
  /-- Call `BRAIN.talk(...)`; the argument is the `wernicke` phrase key (phrase
  templating is opaque to the core). -/
  | talk (key : String)
  /-- Emission `SOCKET_SERVER.socket.emit('is-typing', b)`. -/
  | isTyping (b : Bool)
  /-- Emission `SOCKET_SERVER.socket.emit('suggest', suggestions)`. -/
  | suggest (suggestions : List String)
  /-- Call to `Ner.getSpacyEntities` merge (`mergeSpacyEntities`), external. -/
  | spacyMerge (utterance : String)
  /-- Call `BRAIN.execute(nluResult)`. -/
  | brainExec (nlu : NLUResult)
  /-- A reentrant `this.process(utterance)` call. -/
  | reenter (utterance : String)
  /-- Assignment `BRAIN.lang = locale`. -/
  | setLang (locale : String)
  /-- Call `kill(global.tcpServerProcess.pid, ...)` (tree kill). -/
  | killTree
  /-- Call `spawn(TCP_SERVER_BIN_PATH + ' ' + locale, ...)` with a shell. -/
  | spawnTcp (locale : String)
  /-- Call `TCP_CLIENT.connect()`. -/
  | tcpConnect
  /-- The `connected` listener installed by `switchLanguage`, which will
  re-run `this.process(utterance)` once the client reconnects. -/
  | onConnectedReprocess (utterance : String)
deriving DecidableEq, Repr

/-- Result value of `switchLanguage` together with its effect trace. -/
structure SwitchLangOut where
  /-- Method `switchLanguage` returns `{}` synchronously; `retvalIsEmptyObj`
  records that. -/
  retvalIsEmptyObj : Bool
  trace : List Event
deriving DecidableEq, Repr

/-- Method `switchLanguage(utterance, locale)` (nlu.ts lines 229-249).  The order
of the trace follows the source: `BRAIN.lang = locale` first (line 234),
then the spoken announcement (line 235), then the tree kill; the spawn,
reconnect and listener swap run inside the kill callback (after the `{}`
has already been returned to the caller). -/
def switchLanguage (utterance locale : String) : SwitchLangOut :=
  { retvalIsEmptyObj := true
    trace :=
      [ .setLang locale
      , .talk "random_language_switch"
      , .killTree
      , .spawnTcp locale
      , .tcpConnect
      , .onConnectedReprocess utterance ] }

/-! ### Main classifier result and the context-biased re-pick
(nlu.ts lines 505-528) -/

/-- One element of `result.classifications` (`{intent, score}`). -/
structure ClassificationCandidate where
  intent : String
  score : Rat
deriving DecidableEq, Repr

/-- Result of `this.mainNlp.process(utterance)` (the fields nlu.ts
destructures). -/
structure MainNlpRes where
  locale : String
  answers : List String
  classifications : List ClassificationCandidate
  score : Rat
  intent : String
  domain : Option String
deriving DecidableEq, Repr

/-- JS truthiness of a possibly-`undefined` string (`undefined` and `""`
are falsy). -/
def jsTruthy : Option String → Bool
  | none => false
  | some s => !s.isEmpty

/-- One iteration of the `classifications.forEach` loop: when
`newScore > 0.6` (the threshold is written `mkRat 3 5`) and the candidate's `"{domain}.{skill}"` equals the active
context's name, the running `(score, intent, domain)` triple is overwritten.
`gid` is the `this.mainNlp.getIntentDomain(locale, intent)` oracle. -/
def repickStep (gid : String → String → Option String) (ctxName locale : String)
    (acc : Rat × String × Option String) (c : ClassificationCandidate) :
    Rat × String × Option String :=
  if c.score > mkRat 3 5 then
    let skillName := splitHead c.intent
    let newDomain := gid locale c.intent
    let newContextName := jsStr newDomain ++ "." ++ skillName
    if ctxName = newContextName then (c.score, c.intent, newDomain) else acc
  else acc

/-- The whole re-pick loop over `result.classifications`. -/
def repick (gid : String → String → Option String) (ctx : ActiveContext)
    (locale : String) (cands : List ClassificationCandidate)
    (init : Rat × String × Option String) : Rat × String × Option String :=
  cands.foldl (repickStep gid (contextName ctx) locale) init

/-- The `(score, intent, domain)` triple `process` ends up with: the
classifier's own top pick, re-picked through the loop above iff an active
context exists. -/
def chosenClassification (gid : String → String → Option String)
    (conv : Option ActiveContext) (r : MainNlpRes) : Rat × String × Option String :=
  match conv with
  | some ctx => repick gid ctx r.locale r.classifications (r.score, r.intent, r.domain)
  | none => (r.score, r.intent, r.domain)

/-! ### Skill config and Brain executor data -/

/-- An `expected_item` object `{name, type}` of a loop config (the JSON's
`type` key is called `itemType` here). -/
structure ExpectedItem where
  name : String
  itemType : String
deriving DecidableEq, Repr

/-- The `loop` entry of an action config. -/
structure LoopConfig where
  expected_item : Option ExpectedItem
deriving DecidableEq, Repr

/-- One slot declaration inside an action config (the fields
`routeSlotFilling` reads). -/
structure SlotConfigEntry where
  name : String
  suggestions : List String
deriving DecidableEq, Repr

/-- One action entry of a skill config. -/
structure ActionConfig where
  loop : Option LoopConfig
  slots : List SlotConfigEntry
deriving DecidableEq, Repr

/-- A resolver definition `{intents: {[leaf]: {value}}}`; the map sends an
intent leaf to its `value`. -/
structure ResolvedIntents where
  intents : List (String × String)
deriving DecidableEq, Repr

/-- A parsed skill config file `{actions, resolvers}`. -/
structure SkillConfig where
  actions : List (String × ActionConfig)
  resolvers : List (String × ResolvedIntents)
deriving DecidableEq, Repr

/-- The error object the NER gateway rejects with (`{type, code, data}`;
`type` is called `etype` here). -/
structure NerError where
  etype : String
  code : String
deriving DecidableEq, Repr

/-- Truthiness model of `action.loop` / `nextAction.loop` is a `Bool`
(`!!x`); `next_action` is the next action's name. -/
structure BrainAction where
  next_action : Option String
  loop : Bool
deriving DecidableEq, Repr

/-- The `core` sub-object of a Brain reply (`core?.restart`,
`core?.isInActionLoop`). -/
structure BrainCore where
  restart : Option Bool
  isInActionLoop : Option Bool
deriving DecidableEq, Repr

/-- The `nextAction` descriptor of a Brain reply. -/
structure NextActionDescriptor where
  name : String
  loop : Bool
deriving DecidableEq, Repr

/-- The Brain executor's reply (spec section 6). -/
structure BrainResult where
  executionTime : Int
  classification : Classification
  action : BrainAction
  nextAction : Option NextActionDescriptor
  core : Option BrainCore
  utterance : Option String
  configDataFilePath : Option ConfigPath
  slots : List (String × Slot)
deriving DecidableEq, Repr

/-! ### The environment of external collaborators -/

/-- External collaborators of the NLU core, as oracle functions: the three
nlp.js classifiers, the NER gateway, the skill config and global resolver
files on disk, the Brain executor, and the two `Date.now()` readings of one
`process` turn.  `Except`-valued oracles model collaborator calls that can
throw/reject. -/
structure Env where
  lang : String
  isMuted : Bool
  shortCodes : List String
  fallbacksFor : String → List FallbackEntry
  mainNlpProcess : String → MainNlpRes
  getIntentDomain : String → String → Option String
  extractEntities : String → ConfigPath → NLUResult → Except NerError (List Entity)
  getMandatorySlots : String → List (String × Slot)
  readConfig : ConfigPath → Option SkillConfig
  readGlobalResolver : String → String → Option ResolvedIntents
  globalResolversProcess : String → Option String
  skillsResolversProcess : String → Option String
  brainExecute : NLUResult → Except Unit BrainResult
  tStart : Int
  tEnd : Int

/-! ### Dispatcher state and outcomes -/

/-- The mutable state of the `NLU` instance that `process` reads and
writes. -/
structure NLUState where
  models : ModelsState
  conv : Option ActiveContext
  nluResultObj : NLUResult
deriving DecidableEq, Repr

/-- The ways `process` (or a handler) rejects. -/
inductive RejectKind where
  /-- Rejection with the "NLP model is missing" message. -/
  | modelsMissing
  /-- Rejection with `{}` from the slot-filling `try`/`catch`. -/
  | emptyObjReject
  /-- Rejection with a wrapped error after `BRAIN.execute` failed. -/
  | executorError
  /-- A rejected inner promise propagating upward out of a handler. -/
  | thrown
deriving DecidableEq, Repr

/-- The values `process` can resolve with. -/
inductive ProcValue where
  /-- Resolution with `null` (handler short-circuits). -/
  | nullValue
  /-- Resolution with `{}`. -/
  | emptyObj
  /-- Resolution with `{processingTime, message}` after fallback failure. -/
  | intentNotFound (processingTime : Int) (message : String)
  /-- Resolution with a Brain reply passed through by a handler. -/
  | brainData (pd : BrainResult)
  /-- Resolution with `{processingTime, ...processedData, nluProcessingTime}`
  on the normal path. -/
  | finished (processingTime : Int) (nluProcessingTime : Int) (pd : BrainResult)
deriving DecidableEq, Repr

/-- How a turn's promise ends up: fulfilled, rejected, or forever pending
(an uncaught exception inside the promise executor). -/
inductive Outcome where
  | resolved (v : ProcValue)
  | rejected (e : RejectKind)
  | unsettled
deriving DecidableEq, Repr

/-- Result of one dispatcher turn: outcome, final instance state, and the
emitted event trace. -/
structure ProcOut where
  outcome : Outcome
  state : NLUState
  trace : List Event
deriving DecidableEq, Repr

/-! ### Slot filling (nlu.ts `slotFill` lines 702-778,
`handleSlotFilling` lines 429-459, `routeSlotFilling` lines 786-822) -/

/-- The values `slotFill` returns: `null`, the `{}` "turn consumed"
sentinel, or the Brain reply. -/
inductive SlotFillValue where
  | nullValue
  | emptySentinel
  | data (pd : BrainResult)
deriving DecidableEq, Repr

instance {ε α : Type} [DecidableEq ε] [DecidableEq α] : DecidableEq (Except ε α)
  | .ok a, .ok b => decidable_of_iff (a = b) (by simp)
  | .error a, .error b => decidable_of_iff (a = b) (by simp)
  | .ok _, .error _ => .isFalse (by simp)
  | .error _, .ok _ => .isFalse (by simp)

/-- Result of `slotFill`: value or propagated throw, plus the updated
conversation state, `this.nluResultObj`, and emitted events. -/
structure SlotFillOut where
  result : Except Unit SlotFillValue
  conv : Option ActiveContext
  nluResultObj : NLUResult
  trace : List Event
deriving DecidableEq, Repr

/-- The NLU result `slotFill` installs before extraction (lines 717-725):
the object literal has no `confidence` key and no `configDataFilePath`
key. -/
def slotFillProbe (ctx : ActiveContext) (utterance : String) : NLUResult :=
  { defaultNluResultObj with
    utterance := some utterance
    classification :=
      { domain := ctx.domain, skill := some (splitHead ctx.intent)
        action := splitSecond ctx.intent, confidence := none } }

/-- Method `slotFill(utterance)` (nlu.ts lines 702-778). -/
def slotFill (env : Env) (st : NLUState) (utterance : String) : SlotFillOut :=
  match st.conv with
  | none => ⟨.ok .nullValue, st.conv, st.nluResultObj, []⟩
  | some ctx =>
    if !jsTruthy ctx.nextAction then ⟨.ok .nullValue, st.conv, st.nluResultObj, []⟩
    else
      let skillName := splitHead ctx.intent
      let configDataFilePath : ConfigPath := ⟨ctx.domain, some skillName, env.lang⟩
      let nlu1 : NLUResult := slotFillProbe ctx utterance
      match env.extractEntities env.lang configDataFilePath nlu1 with
      | .error _ => ⟨.error (), st.conv, nlu1, []⟩
      | .ok entities =>
        let step : ActiveContext × Option String :=
          match getNotFilledSlot ctx with
          | some (_, s) =>
            if entities.length > 0 &&
               entities.any (fun e => e.entity = s.expectedEntity) then
              let c2 := setSlots ctx entities
              match getNotFilledSlot c2 with
              | some (_, s2) => (c2, some s2.pickedQuestion)
              | none => (c2, none)
            else (ctx, none)
          | none => (ctx, none)
        match step with
        | (c2, some q) => ⟨.ok .emptySentinel, some c2, nlu1, [.talk q, .isTyping false]⟩
        | (c2, none) =>
          if !areSlotsAllFilled c2 then
            ⟨.ok .nullValue, none, nlu1, [.talk "random_context_out_of_topic"]⟩
          else
            let nlu2 : NLUResult :=
              { defaultNluResultObj with
                slots := if jsTruthy c2.nextAction then some c2.slots else some []
                utterance := c2.originalUtterance
                configDataFilePath := some configDataFilePath
                classification :=
                  { domain := ctx.domain, skill := some skillName
                    action := c2.nextAction, confidence := some 1 } }
            match env.brainExecute nlu2 with
            | .ok pd => ⟨.ok (.data pd), none, nlu2, [.brainExec nlu2]⟩
            | .error _ => ⟨.error (), none, nlu2, [.brainExec nlu2]⟩

/-- Outcome mapping of `await innerPromise; return null` at a point where a
rejection propagates: a resolved inner dispatch yields `null`, a rejection
rethrows, a pending promise never settles. -/
def resolveAwaitNull (o : Outcome) : Outcome :=
  match o with
  | .resolved _ => .resolved .nullValue
  | .rejected e => .rejected e
  | .unsettled => .unsettled

/-- Outcome mapping of `await innerPromise; return null` inside a `try`
whose `catch` also returns `null`: only a never-settling inner promise
escapes. -/
def resolveCaughtNull (o : Outcome) : Outcome :=
  match o with
  | .unsettled => .unsettled
  | _ => .resolved .nullValue

/-- Outcome mapping of `resolve(await handler)` with no surrounding
`try`: a handler rejection is an uncaught throw inside the promise
executor, so the turn never settles. -/
def awaitOrUnsettle (o : Outcome) : Outcome :=
  match o with
  | .resolved v => .resolved v
  | _ => .unsettled

/-- Outcome mapping of `try { resolve(await handler) } catch { reject({}) }`. -/
def awaitCatchEmpty (o : Outcome) : Outcome :=
  match o with
  | .resolved v => .resolved v
  | .rejected _ => .rejected .emptyObjReject
  | .unsettled => .unsettled

/-- Method `handleSlotFilling(utterance)` (nlu.ts lines 429-459).  `proc` is
the reentrant `this.process` (fuel-instantiated by the dispatcher). -/
def handleSlotFilling (env : Env) (proc : NLUState → String → ProcOut)
    (st : NLUState) (utterance : String) : ProcOut :=
  let sf := slotFill env st utterance
  match sf.result with
  | .error _ => ⟨.rejected .thrown, ⟨st.models, sf.conv, sf.nluResultObj⟩, sf.trace⟩
  | .ok .nullValue =>
    let p := proc ⟨st.models, sf.conv, sf.nluResultObj⟩ utterance
    ⟨resolveAwaitNull p.outcome, p.state, sf.trace ++ .reenter utterance :: p.trace⟩
  | .ok .emptySentinel =>
    ⟨.resolved .emptyObj, ⟨st.models, sf.conv, sf.nluResultObj⟩, sf.trace⟩
  | .ok (.data pd) =>
    if jsTruthy pd.action.next_action then
      match pd.nextAction with
      | none =>
        -- `!!processedData.nextAction.loop` with `nextAction` undefined throws
        ⟨.rejected .thrown, ⟨st.models, sf.conv, sf.nluResultObj⟩, sf.trace⟩
      | some na =>
        let ctx : ActiveContext :=
          { lang := env.lang
            slots := pd.slots
            isInActionLoop := na.loop
            originalUtterance := pd.utterance
            configDataFilePath := pd.configDataFilePath
            actionName := pd.action.next_action
            domain := pd.classification.domain
            intent := jsStr pd.classification.skill ++ "." ++ jsStr pd.action.next_action
            entities := []
            currentEntities := []
            nextAction := none }
        ⟨.resolved (.brainData pd),
          ⟨st.models, setActiveContext sf.conv ctx, sf.nluResultObj⟩, sf.trace⟩
    else ⟨.resolved (.brainData pd), ⟨st.models, sf.conv, sf.nluResultObj⟩, sf.trace⟩

/-- Method `routeSlotFilling(intent)` (nlu.ts lines 786-822).  Returns the
boolean the dispatcher branches on, the updated conversation state, and the
events; `.error` models the uncaught throw of the
`actions[...].slots.filter(...)[0].suggestions` chain. -/
def routeSlotFilling (env : Env) (conv : Option ActiveContext) (nlu : NLUResult)
    (intent : String) : Except Unit (Bool × Option ActiveContext × List Event) :=
  let slots := env.getMandatorySlots intent
  if slots.length > 0 then
    let ctx : ActiveContext :=
      { lang := env.lang
        slots := slots
        isInActionLoop := false
        originalUtterance := nlu.utterance
        configDataFilePath := nlu.configDataFilePath
        actionName := nlu.classification.action
        domain := nlu.classification.domain
        intent := intent
        entities := nlu.entities
        currentEntities := []
        nextAction := none }
    let conv2 := setActiveContext conv ctx
    match conv2 with
    | some c =>
      match getNotFilledSlot c with
      | some (slotName, slot) =>
        let suggestionsOpt : Option (List String) := do
          let p ← nlu.configDataFilePath
          let cfg ← env.readConfig p
          let a ← jsGet cfg.actions (jsStr nlu.classification.action)
          let cs ← (a.slots.filter (fun sc => sc.name = slotName)).head?
          pure cs.suggestions
        match suggestionsOpt with
        | none => .error ()
        | some sg =>
          .ok (true, conv2, [.suggest sg, .talk slot.pickedQuestion, .isTyping false])
      | none => .ok (false, conv2, [])
    | none => .ok (false, conv2, [])
  else .ok (false, conv, [])

/-! ### Action loop handler (nlu.ts `handleActionLoop`, lines 293-424) -/

/-- The distinct uncaught-throw points of `handleActionLoop` before the
match decision. -/
inductive ActionLoopError where
  /-- Destructuring the empty context and splitting `undefined`. -/
  | noActiveContext
  /-- The `ner.extractEntities` call threw (not wrapped in `try` here). -/
  | nerThrow
  /-- Reading/parsing the skill config file threw. -/
  | configThrow
  /-- The unguarded `actions[action].loop.expected_item` access threw. -/
  | expectedItemThrow
  /-- `nlpObjs[type]` was undefined, or resolver resolution threw. -/
  | resolverThrow
deriving DecidableEq, Repr

/-- The unguarded config access of `handleActionLoop` (lines 324-326):
`actions[this.nluResultObj.classification.action].loop.expected_item`.
`none` means the chain throws a `TypeError`. -/
def expectedItemAccess (cfg : SkillConfig) (action : Option String) :
    Option ExpectedItem :=
  ((jsGet cfg.actions (jsStr action)).bind (fun a => a.loop)).bind
    (fun l => l.expected_item)

/-- The NLU result `handleActionLoop` installs from the active context
(lines 303-314). -/
def actionLoopProbe (env : Env) (ctx : ActiveContext) (utterance : String) : NLUResult :=
  { defaultNluResultObj with
    slots := some ctx.slots
    utterance := some utterance
    configDataFilePath := some ⟨ctx.domain, some (splitHead ctx.intent), env.lang⟩
    classification :=
      { domain := ctx.domain, skill := some (splitHead ctx.intent)
        action := splitSecond ctx.intent, confidence := some 1 } }

/-- An NLU result with its `entities` field replaced
(`this.nluResultObj.entities = await this.ner.extractEntities(...)`). -/
def nluWithEntities (nlu : NLUResult) (es : List Entity) : NLUResult :=
  { nlu with entities := es }

/-- The entity / resolver matching of `handleActionLoop` (lines 327-380),
after the `expected_item` has been located: returns the (possibly
resolver-augmented) NLU result together with `(hasMatchingEntity,
hasMatchingResolver)`, or the point where the matching throws. -/
def actionLoopMatch (env : Env) (cfg : SkillConfig) (skillName : String)
    (item : ExpectedItem) (nlu2 : NLUResult) (utterance : String) :
    Except (ActionLoopError × NLUResult) (NLUResult × Bool × Bool) :=
  if item.itemType = "entity" then
    let hasME : Bool := (nlu2.entities.filter (fun e => item.name = e.entity)).length > 0
    .ok (nlu2, hasME, false)
  else if jsIncludes item.itemType "resolver" then
    match (if item.itemType = "global_resolver" then
             some env.globalResolversProcess
           else if item.itemType = "skill_resolver" then
             some env.skillsResolversProcess
           else none) with
    | none => .error (.resolverThrow, nlu2)
    | some nlpProcess =>
      match nlpProcess utterance with
      | none => .ok (nlu2, false, false)
      | some rIntent =>
        if !rIntent.isEmpty &&
           (jsIncludes rIntent "resolver.global" ||
            jsIncludes rIntent ("resolver." ++ skillName)) then
          let resolvedIntents : Option ResolvedIntents :=
            if !(jsIncludes rIntent "resolver.global") then
              jsGet cfg.resolvers item.name
            else env.readGlobalResolver env.lang item.name
          match resolvedIntents with
          | none => .error (.resolverThrow, nlu2)
          | some ri =>
            match jsGet ri.intents (lastSegment rIntent) with
            | none => .error (.resolverThrow, nlu2)
            | some v =>
              let nlu3 := { nlu2 with resolvers := [⟨item.name, v⟩] }
              .ok (nlu3, false, decide (nlu3.resolvers.length > 0))
        else .ok (nlu2, false, false)
  else .ok (nlu2, false, false)

/-- Everything `handleActionLoop` does before the match decision of line
383: build the NLU result from the context, extract entities, read the
config, locate `loop.expected_item`, and compute `hasMatchingEntity` /
`hasMatchingResolver` (writing matched resolvers into the result).  Errors
carry the `this.nluResultObj` value at the point of the throw. -/
def actionLoopPrepare (env : Env) (st : NLUState) (utterance : String) :
    Except (ActionLoopError × NLUResult) (ActiveContext × NLUResult × Bool × Bool) :=
  match st.conv with
  | none => .error (.noActiveContext, st.nluResultObj)
  | some ctx =>
    let skillName := splitHead ctx.intent
    let configDataFilePath : ConfigPath := ⟨ctx.domain, some skillName, env.lang⟩
    let nlu1 : NLUResult := actionLoopProbe env ctx utterance
    match env.extractEntities env.lang configDataFilePath nlu1 with
    | .error _ => .error (.nerThrow, nlu1)
    | .ok ents =>
      let nlu2 := nluWithEntities nlu1 ents
      match env.readConfig configDataFilePath with
      | none => .error (.configThrow, nlu2)
      | some cfg =>
        match expectedItemAccess cfg nlu2.classification.action with
        | none => .error (.expectedItemThrow, nlu2)
        | some item =>
          match actionLoopMatch env cfg skillName item nlu2 utterance with
          | .error e => .error e
          | .ok (nlu3, hasME, hasMR) => .ok (ctx, nlu3, hasME, hasMR)

/-- The decision part of `handleActionLoop` (lines 382-424): out-of-topic
handling, Brain execution, and loop-state updates. -/
def handleActionLoopDecision (env : Env) (proc : NLUState → String → ProcOut)
    (st : NLUState) (utterance : String) (ctx : ActiveContext) (nlu : NLUResult)
    (hasME hasMR : Bool) : ProcOut :=
  if !hasME && !hasMR then
    let p := proc ⟨st.models, none, nlu⟩ utterance
    ⟨resolveAwaitNull p.outcome, p.state,
      .talk "random_context_out_of_topic" :: .reenter utterance :: p.trace⟩
  else
    match env.brainExecute nlu with
    | .error _ => ⟨.resolved .nullValue, ⟨st.models, st.conv, nlu⟩, [.brainExec nlu]⟩
    | .ok pd =>
      if (pd.core.bind (fun c => c.restart)) = some true then
        match ctx.originalUtterance with
        | none =>
          -- `process(undefined)`: the downstream library calls throw;
          -- rejection caught by the surrounding `try` gives `null`
          ⟨.resolved .nullValue, ⟨st.models, none, nlu⟩, [.brainExec nlu]⟩
        | some originalUtterance =>
          let p := proc ⟨st.models, none, nlu⟩ originalUtterance
          ⟨resolveCaughtNull p.outcome, p.state,
            .brainExec nlu :: .reenter originalUtterance :: p.trace⟩
      else if pd.action.next_action = none &&
              (pd.core.bind (fun c => c.isInActionLoop)) = some false then
        ⟨.resolved .nullValue, ⟨st.models, none, nlu⟩, [.brainExec nlu]⟩
      else
        let conv2 :=
          if (pd.core.bind (fun c => c.isInActionLoop)) = some false then
            some { ctx with
              isInActionLoop := pd.action.loop
              actionName := pd.action.next_action
              intent := jsStr pd.classification.skill ++ "." ++
                jsStr pd.action.next_action }
          else st.conv
        ⟨.resolved (.brainData pd), ⟨st.models, conv2, nlu⟩, [.brainExec nlu]⟩

/-- Method `handleActionLoop(utterance)` (nlu.ts lines 293-424). -/
def handleActionLoop (env : Env) (proc : NLUState → String → ProcOut)
    (st : NLUState) (utterance : String) : ProcOut :=
  match actionLoopPrepare env st utterance with
  | .error (_, nluAtThrow) => ⟨.rejected .thrown, ⟨st.models, st.conv, nluAtThrow⟩, []⟩
  | .ok (ctx, nlu, hasME, hasMR) =>
    handleActionLoopDecision env proc st utterance ctx nlu hasME hasMR

/-! ### Dispatcher (nlu.ts `process`, lines 466-696) -/

/-- Whether one of the two pre-NLU context branches of `process` is taken
(action loop, or already-recorded slots). -/
def contextPreBranch : Option ActiveContext → Bool
  | some ctx => ctx.isInActionLoop || ctx.slots.length > 0
  | none => false

/-- The NLU result `process` installs after classification (lines 530-541),
with the `(score, intent, domain)` triple from `chosenClassification`. -/
def builtNluResult (gid : String → String → Option String)
    (conv : Option ActiveContext) (utterance : String) (r : MainNlpRes) : NLUResult :=
  let c := chosenClassification gid conv r
  { defaultNluResultObj with
    utterance := some utterance
    answers := r.answers
    classification :=
      { domain := c.2.2, skill := some (splitHead c.2.1)
        action := splitSecond c.2.1, confidence := some c.1 } }

/-- The tail of the dispatcher (lines 595-695): config path, NER extraction
with its non-fatal catch, slot routing, context update, Brain execution and
the timed result. -/
def processTail (env : Env) (proc : NLUState → String → ProcOut)
    (models : ModelsState) (conv : Option ActiveContext) (nlu1 : NLUResult)
    (utterance intent skillName : String) : ProcOut :=
  let configDataFilePath : ConfigPath :=
    ⟨nlu1.classification.domain, nlu1.classification.skill, env.lang⟩
  let nlu2 := { nlu1 with configDataFilePath := some configDataFilePath }
  let (nlu3, nerEvents) :=
    match env.extractEntities env.lang configDataFilePath nlu2 with
    | .ok es => ({ nlu2 with entities := es }, ([] : List Event))
    | .error e => (nlu2, if env.isMuted then [] else [.talk e.code])
  match routeSlotFilling env conv nlu3 intent with
  | .error _ => ⟨.unsettled, ⟨models, conv, nlu3⟩, nerEvents⟩
  | .ok (shouldSlotLoop, conv2, slotEvents) =>
    if shouldSlotLoop then
      ⟨.resolved .emptyObj, ⟨models, conv2, nlu3⟩, nerEvents ++ slotEvents⟩
    else
      let slotsFilled : Bool :=
        match conv2 with
        | some c => c.slots.length > 0
        | none => false
      if slotsFilled then
        let h := handleSlotFilling env proc ⟨models, conv2, nlu3⟩ utterance
        ⟨awaitCatchEmpty h.outcome, h.state, nerEvents ++ slotEvents ++ h.trace⟩
      else
        -- `newContextName` uses the post-fallback domain but the
        -- pre-fallback `skillName`; the context literal stores the
        -- pre-fallback `intent` variable (lines 637-651)
        let newContextName := jsStr nlu3.classification.domain ++ "." ++ skillName
        let conv3 :=
          match conv2 with
          | some c => if contextName c ≠ newContextName then none else conv2
          | none => none
        let ctx : ActiveContext :=
          { lang := env.lang
            slots := []
            isInActionLoop := false
            originalUtterance := nlu3.utterance
            configDataFilePath := nlu3.configDataFilePath
            actionName := nlu3.classification.action
            domain := nlu3.classification.domain
            intent := intent
            entities := nlu3.entities
            currentEntities := []
            nextAction := none }
        let conv4 := setActiveContext conv3 ctx
        let (curEnts, ctxEnts) :=
          match conv4 with
          | some c => (c.currentEntities, c.entities)
          | none => ([], [])
        let nlu4 := { nlu3 with currentEntities := curEnts, entities := ctxEnts }
        match env.brainExecute nlu4 with
        | .error _ =>
          ⟨.rejected .executorError, ⟨models, conv4, nlu4⟩,
            nerEvents ++ slotEvents ++ [.brainExec nlu4] ++
              (if env.isMuted then [] else [.isTyping false])⟩
        | .ok pd =>
          let conv5 :=
            match pd.nextAction with
            | some na =>
              setActiveContext none
                { lang := env.lang
                  slots := []
                  isInActionLoop := na.loop
                  originalUtterance := pd.utterance
                  configDataFilePath := pd.configDataFilePath
                  actionName := pd.action.next_action
                  domain := pd.classification.domain
                  intent := jsStr pd.classification.skill ++ "." ++
                    jsStr pd.action.next_action
                  entities := []
                  currentEntities := []
                  nextAction := none }
            | none => conv4
          let pt := env.tEnd - env.tStart
          ⟨.resolved (.finished pt (pt - pd.executionTime) pd),
            ⟨models, conv5, nlu4⟩, nerEvents ++ slotEvents ++ [.brainExec nlu4]⟩

/-- The classify-and-dispatch part of `process` (lines 505-594 plus the
tail): classification, re-pick, language gates, `None`/fallback handling. -/
def processMain (env : Env) (proc : NLUState → String → ProcOut)
    (st : NLUState) (utterance : String) : ProcOut :=
  let r := env.mainNlpProcess utterance
  let locale := r.locale
  let intent := (chosenClassification env.getIntentDomain st.conv r).2.1
  let skillName := splitHead intent
  let nlu1 := builtNluResult env.getIntentDomain st.conv utterance r
  let st2 : NLUState := ⟨st.models, st.conv, nlu1⟩
  if !(env.shortCodes.contains locale) then
    ⟨.resolved .emptyObj, st2, [.talk "random_language_not_supported", .isTyping false]⟩
  else if env.lang ≠ locale then
    ⟨.resolved .emptyObj, st2, (switchLanguage utterance locale).trace⟩
  else
    match (if intent = "None" then fallback nlu1 (env.fallbacksFor locale)
           else some nlu1) with
    | none =>
      let ev := if env.isMuted then [] else
        [Event.talk "random_unknown_intents", Event.isTyping false]
      let pt := env.tEnd - env.tStart
      ⟨.resolved (.intentNotFound pt "Intent not found"), st2, ev⟩
    | some nlu1b =>
      processTail env proc st.models st.conv nlu1b utterance intent skillName

/-- Method `process(utterance)` (nlu.ts lines 466-696), with a fuel
parameter bounding the reentrant dispatch depth (fuel exhaustion is
modelled as a never-settling turn). -/
def process (env : Env) : Nat → NLUState → String → ProcOut
  | 0, st, _ => ⟨.unsettled, st, []⟩
  | fuel + 1, st, utterance =>
    if !hasNlpModels st.models then
      let ev := if env.isMuted then [] else
        [Event.talk "random_errors", Event.isTyping false]
      ⟨.rejected .modelsMissing, st, ev⟩
    else
      let inner : ProcOut :=
        match st.conv with
        | some ctx =>
          if ctx.isInActionLoop then
            -- `resolve(await this.handleActionLoop(...))`: a rejection is
            -- uncaught inside the promise executor, so the turn never settles
            let h := handleActionLoop env (process env fuel) st utterance
            ⟨awaitOrUnsettle h.outcome, h.state, h.trace⟩
          else if ctx.slots.length > 0 then
            let h := handleSlotFilling env (process env fuel) st utterance
            ⟨awaitCatchEmpty h.outcome, h.state, h.trace⟩
          else processMain env (process env fuel) st utterance
        | none => processMain env (process env fuel) st utterance
      ⟨inner.outcome, inner.state, .spacyMerge utterance :: inner.trace⟩

/-! ### Lemmas about the fallback matcher -/

lemma filter_contains_of_all_mem {l ws : List String}
    (h : ∀ w ∈ l, w ∈ ws) : l.filter (fun w => ws.contains w) = l := by
  apply List.filter_eq_self.mpr
  intro a ha
  simpa using h a ha

lemma filter_contains_of_no_mem {l ws : List String}
    (h : ∀ w ∈ l, w ∉ ws) : l.filter (fun w => ws.contains w) = [] := by
  rw [List.filter_eq_nil_iff]
  intro a ha
  simpa using h a ha

/-- Soundness of the accumulating loop: a match yields the hit of some entry
of the table all of whose words occur in the utterance tokens, provided the
accumulator only holds utterance tokens. -/
lemma fallbackLoop_sound (words : List String) (nlu : NLUResult) :
    ∀ (fbs : List FallbackEntry) (tmp : List String),
      (∀ w ∈ tmp, w ∈ words) →
      ∀ r, fallbackLoop words nlu tmp fbs = some r →
        ∃ fb ∈ fbs, r = fallbackHit nlu fb ∧ ∀ w ∈ fb.words, w ∈ words := by
  intro fbs
  induction fbs with
  | nil => intro tmp _ r hr; simp [fallbackLoop] at hr
  | cons fb rest ih =>
    intro tmp htmp r hr
    rw [fallbackLoop] at hr
    by_cases hm : tmp ++ fb.words.filter (fun w => words.contains w) = fb.words
    · rw [if_pos hm] at hr
      refine ⟨fb, List.mem_cons_self _ _, by exact (Option.some.inj hr).symm, ?_⟩
      intro w hw
      rw [← hm] at hw
      rcases List.mem_append.mp hw with h1 | h2
      · exact htmp w h1
      · have := List.of_mem_filter h2
        simpa using this
    · rw [if_neg hm] at hr
      have htmp2 : ∀ w ∈ tmp ++ fb.words.filter (fun w => words.contains w), w ∈ words := by
        intro w hw
        rcases List.mem_append.mp hw with h1 | h2
        · exact htmp w h1
        · have := List.of_mem_filter h2
          simpa using this
      rcases ih _ htmp2 r hr with ⟨fb2, hfb2, hre, hws⟩
      exact ⟨fb2, List.mem_cons_of_mem _ hfb2, hre, hws⟩

/-- When no table entry has a partial overlap with the utterance tokens, the
accumulating loop behaves as the first-fully-present-entry rule. -/
lemma fallbackLoop_eq_find_of_allOrNone (words : List String) (nlu : NLUResult) :
    ∀ (fbs : List FallbackEntry),
      (∀ fb ∈ fbs, allOrNone words fb) →
      fallbackLoop words nlu [] fbs =
        match fbs.find? (fun fb => fb.words.all (fun w => words.contains w)) with
        | some fb => some (fallbackHit nlu fb)
        | none => none := by
  intro fbs
  induction fbs with
  | nil => intro _; simp [fallbackLoop]
  | cons fb rest ih =>
    intro H
    rw [fallbackLoop, List.nil_append]
    rcases H fb (List.mem_cons_self _ _) with hall | hnone
    · rw [filter_contains_of_all_mem hall, if_pos rfl]
      have hpred :
          (fun fb : FallbackEntry => fb.words.all fun w => words.contains w) fb = true := by
        simp only [List.all_eq_true]
        intro w hw
        simpa using hall w hw
      rw [@List.find?_cons_of_pos FallbackEntry
        (fun fb => fb.words.all fun w => words.contains w) fb rest hpred]
    · by_cases hnil : fb.words = []
      · have hfilter : fb.words.filter (fun w => words.contains w) = fb.words := by
          rw [hnil]; rfl
        rw [hfilter, if_pos rfl]
        have hpred :
            (fun fb : FallbackEntry => fb.words.all fun w => words.contains w) fb = true := by
          simp [hnil]
        rw [@List.find?_cons_of_pos FallbackEntry
          (fun fb => fb.words.all fun w => words.contains w) fb rest hpred]
      · have hfilter := filter_contains_of_no_mem hnone
        rw [hfilter, if_neg (fun h => hnil h.symm)]
        have hpred :
            ¬ (fun fb : FallbackEntry => fb.words.all fun w => words.contains w) fb = true := by
          simp only [List.all_eq_true, not_forall]
          rcases List.exists_mem_of_ne_nil fb.words hnil with ⟨w, hw⟩
          refine ⟨w, hw, ?_⟩
          simpa using hnone w hw
        rw [@List.find?_cons_of_neg FallbackEntry
          (fun fb => fb.words.all fun w => words.contains w) fb rest hpred]
        exact ih (fun fb2 h2 => H fb2 (List.mem_cons_of_mem _ h2))

/-- Concrete inputs exhibiting the accumulation bug of `fallback`. -/
def nluHello : NLUResult := { defaultNluResultObj with utterance := some "hello" }

/-- A fallback table whose first entry partially overlaps the utterance
`"hello"` and whose second entry is fully present in it. -/
def fbsHello : List FallbackEntry :=
  [ { words := ["hello", "world"], domain := "d0", skill := "s0", action := "a0" }
  , { words := ["hello"], domain := "greetings", skill := "hello", action := "run" } ]

/-- C2 counterexample: on utterance `"hello"` with a table whose first entry
is `["hello","world"]` and whose second entry is `["hello"]`, the second
entry has all of its words in the utterance, so the claim requires its
classification to be returned; the source's `fallback` instead returns
`false` ("not matched"), because the word `"hello"` contributed by the
partially-matching first entry is still in `tmpWords` when the second entry
is compared. -/
theorem fallback_skips_full_match_counterexample :
    fallback nluHello fbsHello = none ∧
    fallbackSpec nluHello fbsHello =
      some (fallbackHit nluHello
        { words := ["hello"], domain := "greetings", skill := "hello", action := "run" }) := by
  constructor <;> decide

/-- C2 (amended): `fallback` returns, with confidence 1 and empty entities,
the classification of an entry all of whose words occur in the
whitespace-tokenized lowercased utterance, and returns `false` when no such
match is reached; it agrees with the claimed first-fully-present-entry rule
whenever no table entry has a partial overlap with the utterance token list
(each entry has either all or none of its words present).  In general,
words contributed by partially-overlapping earlier entries accumulate in
the comparison buffer and can prevent a fully-present entry from matching
(see the counterexample). -/
theorem fallback_amended (nlu : NLUResult) (fbs : List FallbackEntry) (u : String)
    (hu : nlu.utterance = some u) :
    ((∀ fb ∈ fbs, allOrNone (utteranceWords u) fb) →
      fallback nlu fbs = fallbackSpec nlu fbs) ∧
    (∀ r, fallback nlu fbs = some r →
      r.classification.confidence = some 1 ∧ r.entities = [] ∧
      ∃ fb ∈ fbs, r = fallbackHit nlu fb ∧ ∀ w ∈ fb.words, w ∈ utteranceWords u) := by
  constructor
  · intro H
    unfold fallback fallbackSpec
    rw [hu]
    exact fallbackLoop_eq_find_of_allOrNone (utteranceWords u) nlu fbs H
  · intro r hr
    unfold fallback at hr
    rw [hu] at hr
    rcases fallbackLoop_sound (utteranceWords u) nlu fbs [] (by simp) r hr with
      ⟨fb, hfb, hre, hws⟩
    refine ⟨?_, ?_, fb, hfb, hre, hws⟩
    · rw [hre]; rfl
    · rw [hre]; rfl

/-- Concrete inputs on which the amended C2 theorem's no-partial-overlap
hypothesis holds. -/
def nluHelloLeon : NLUResult := { defaultNluResultObj with utterance := some "hello leon" }

/-- A one-entry fallback table fully present in `"hello leon"`. -/
def fbsHelloLeon : List FallbackEntry :=
  [ { words := ["hello", "leon"], domain := "greetings", skill := "hello", action := "run" } ]

/-- Witness for the amended C2 theorem at concrete inputs. -/
theorem fallback_amended_witness :
    fallback nluHelloLeon fbsHelloLeon = fallbackSpec nluHelloLeon fbsHelloLeon :=
  (fallback_amended nluHelloLeon fbsHelloLeon "hello leon" rfl).1 (by decide)

/-! ### Trace observations -/

/-- Index of the first language assignment in a trace (the trace length when
there is none). -/
def firstSetLangIdx (tr : List Event) : Nat :=
  tr.findIdx (fun e => match e with | .setLang _ => true | _ => false)

/-- Index of the first spoken phrase in a trace (the trace length when there
is none). -/
def firstTalkIdx (tr : List Event) : Nat :=
  tr.findIdx (fun e => match e with | .talk _ => true | _ => false)

/-- Whether a trace holds a Brain execution whose NLU result has a nonempty
entity list. -/
def anyBrainExecNonemptyEntities (tr : List Event) : Bool :=
  tr.any (fun e => match e with
    | .brainExec nlu => !nlu.entities.isEmpty
    | _ => false)

/-! ### C8: language switch ordering -/

/-- C8 counterexample: the claim says the "switching language" announcement
is spoken first and `BRAIN.lang` updated only afterwards; in the source
(lines 234-235) `BRAIN.lang = locale` runs before `BRAIN.talk`.  On the
concrete call the assignment is trace position 0 and the announcement
position 1, so the announcement does not precede the assignment. -/
theorem switchLanguage_talk_before_lang_counterexample :
    firstSetLangIdx (switchLanguage "hello" "fr-FR").trace = 0 ∧
    firstTalkIdx (switchLanguage "hello" "fr-FR").trace = 1 ∧
    ¬ firstTalkIdx (switchLanguage "hello" "fr-FR").trace <
        firstSetLangIdx (switchLanguage "hello" "fr-FR").trace := by
  refine ⟨rfl, rfl, by decide⟩

/-- C8 (amended): `switchLanguage` first updates the current language
(`BRAIN.lang = locale`) and speaks the "switching language" announcement
immediately afterwards; it then kills the old tokenization process tree
and, in the kill callback, spawns a new child with the new locale and
reconnects the TCP client with a `connected` listener that reprocesses the
same utterance; the empty object is returned synchronously. -/
theorem switchLanguage_amended (utterance locale : String) :
    (switchLanguage utterance locale).retvalIsEmptyObj = true ∧
    firstSetLangIdx (switchLanguage utterance locale).trace <
      firstTalkIdx (switchLanguage utterance locale).trace ∧
    (switchLanguage utterance locale).trace =
      [.setLang locale, .talk "random_language_switch", .killTree,
       .spawnTcp locale, .tcpConnect, .onConnectedReprocess utterance] :=
  ⟨rfl, Nat.zero_lt_one, rfl⟩

/-! ### C4: readiness check vs load success -/

/-- C4 counterexample: when the two resolver models load successfully but
the main model's `nlp.load` throws after `this.mainNlp =
container.get('nlp')` has already run, `loadNLPModels` rejects (so not all
three models were loaded successfully), yet `hasNlpModels()` returns
`true` — refuting "false whenever any of the three model loads failed". -/
theorem hasNlpModels_true_after_failed_load_counterexample :
    (loadNLPModels initialModels .loadOk .loadOk .loadError).2 = false ∧
    hasNlpModels (loadNLPModels initialModels .loadOk .loadOk .loadError).1 = true := by
  decide

/-- C4 (amended): after `loadNLPModels`, `hasNlpModels()` returns `true` iff
each of the three loads reached the `this.xxxNlp = container.get('nlp')`
assignment (the model file existed and container set-up succeeded),
regardless of whether the model load that follows the assignment
succeeded.  Successful loading of all three still implies readiness; but a
load failure after the assignment leaves the check `true`. -/
theorem hasNlpModels_iff_reached_assignment (og os om : LoadOutcome) :
    (hasNlpModels (loadNLPModels initialModels og os om).1 =
      (reachedAssignment og && reachedAssignment os && reachedAssignment om)) ∧
    ((loadNLPModels initialModels og os om).2 = true →
      hasNlpModels (loadNLPModels initialModels og os om).1 = true) := by
  constructor
  · cases og <;> cases os <;> cases om <;> rfl
  · intro h
    cases og <;> cases os <;> cases om <;> first
      | rfl
      | exact absurd h (by decide)

/-- Witness for the amended C4 theorem at concrete load outcomes. -/
theorem hasNlpModels_iff_reached_assignment_witness :
    hasNlpModels (loadNLPModels initialModels .loadOk .loadOk .loadOk).1 = true :=
  (hasNlpModels_iff_reached_assignment .loadOk .loadOk .loadOk).2 (by decide)

/-! ### C3: the context-biased re-pick -/

lemma splitHead_no_dot (s : String) : '.' ∉ (splitHead s).data := by
  intro h
  have := List.mem_takeWhile_imp h
  simp at this

lemma append_cons_inj {α : Type} {c : α} :
    ∀ (l1 l2 m1 m2 : List α), c ∉ m1 → c ∉ m2 →
      l1 ++ c :: m1 = l2 ++ c :: m2 → l1 = l2 ∧ m1 = m2 := by
  intro l1
  induction l1 with
  | nil =>
    intro l2 m1 m2 h1 _ heq
    cases l2 with
    | nil => simpa using heq
    | cons x l2' =>
      rw [List.nil_append, List.cons_append] at heq
      rcases List.cons.inj heq with ⟨_, hm⟩
      exfalso
      apply h1
      rw [hm]
      exact List.mem_append_right _ (List.mem_cons_self _ _)
  | cons x l1' ih =>
    intro l2 m1 m2 h1 h2 heq
    cases l2 with
    | nil =>
      rw [List.cons_append, List.nil_append] at heq
      rcases List.cons.inj heq with ⟨_, hm⟩
      exfalso
      apply h2
      rw [← hm]
      exact List.mem_append_right _ (List.mem_cons_self _ _)
    | cons y l2' =>
      rw [List.cons_append, List.cons_append] at heq
      rcases List.cons.inj heq with ⟨hxy, hrest⟩
      rcases ih l2' m1 m2 h1 h2 hrest with ⟨ha, hb⟩
      exact ⟨by rw [hxy, ha], hb⟩

/-- Injectivity of `d ++ "." ++ s` name rendering for dot-free second
components. -/
lemma append_dot_inj {d1 d2 s1 s2 : String}
    (h1 : '.' ∉ s1.data) (h2 : '.' ∉ s2.data)
    (h : d1 ++ "." ++ s1 = d2 ++ "." ++ s2) : d1 = d2 ∧ s1 = s2 := by
  have h3 := congrArg String.data h
  simp only [String.data_append] at h3
  simp only [List.append_assoc, List.singleton_append] at h3
  rcases append_cons_inj _ _ _ _ h1 h2 h3 with ⟨ha, hb⟩
  constructor
  · cases d1; cases d2; simp at ha; rw [ha]
  · cases s1; cases s2; simp at hb; rw [hb]

/-- The re-pick condition on one candidate: score above 0.6 and rendered
`"{domain}.{skill}"` equal to the active context's name. -/
def repickTrigger (gid : String → String → Option String) (ctxName locale : String)
    (c : ClassificationCandidate) : Prop :=
  c.score > mkRat 3 5 ∧
    ctxName = jsStr (gid locale c.intent) ++ "." ++ splitHead c.intent

instance (gid : String → String → Option String) (ctxName locale : String)
    (c : ClassificationCandidate) : Decidable (repickTrigger gid ctxName locale c) := by
  unfold repickTrigger; infer_instance

/-- Name rendered from a chosen `(score, intent, domain)` triple the way
the re-pick loop renders candidate names. -/
def chosenName (acc : Rat × String × Option String) : String :=
  jsStr acc.2.2 ++ "." ++ splitHead acc.2.1

lemma repickStep_eq (gid : String → String → Option String) (ctxName locale : String)
    (acc : Rat × String × Option String) (c : ClassificationCandidate) :
    repickStep gid ctxName locale acc c =
      if repickTrigger gid ctxName locale c then (c.score, c.intent, gid locale c.intent)
      else acc := by
  simp only [repickStep, repickTrigger]
  by_cases h1 : c.score > mkRat 3 5 <;>
    by_cases h2 : ctxName = jsStr (gid locale c.intent) ++ "." ++ splitHead c.intent <;>
      simp [h1, h2]

lemma repick_foldl_invariant (gid : String → String → Option String)
    (ctxName locale : String) :
    ∀ (cands : List ClassificationCandidate) (acc : Rat × String × Option String),
      (∀ c ∈ cands, (gid locale c.intent).isSome = true) →
      chosenName acc = ctxName → acc.2.2.isSome = true →
      chosenName (cands.foldl (repickStep gid ctxName locale) acc) = ctxName ∧
        (cands.foldl (repickStep gid ctxName locale) acc).2.2.isSome = true := by
  intro cands
  induction cands with
  | nil => intro acc _ h1 h2; exact ⟨h1, h2⟩
  | cons c rest ih =>
    intro acc hD h1 h2
    rw [List.foldl_cons, repickStep_eq]
    by_cases ht : repickTrigger gid ctxName locale c
    · rw [if_pos ht]
      apply ih
      · intro x hx; exact hD x (List.mem_cons_of_mem _ hx)
      · exact ht.2.symm
      · exact hD c (List.mem_cons_self _ _)
    · rw [if_neg ht]
      exact ih acc (fun x hx => hD x (List.mem_cons_of_mem _ hx)) h1 h2

lemma repick_foldl_of_trigger (gid : String → String → Option String)
    (ctxName locale : String) :
    ∀ (cands : List ClassificationCandidate) (acc : Rat × String × Option String),
      (∀ c ∈ cands, (gid locale c.intent).isSome = true) →
      (∃ c ∈ cands, repickTrigger gid ctxName locale c) →
      chosenName (cands.foldl (repickStep gid ctxName locale) acc) = ctxName ∧
        (cands.foldl (repickStep gid ctxName locale) acc).2.2.isSome = true := by
  intro cands
  induction cands with
  | nil => intro acc _ hex; rcases hex with ⟨c, hc, _⟩; simp at hc
  | cons c rest ih =>
    intro acc hD hex
    rw [List.foldl_cons, repickStep_eq]
    by_cases ht : repickTrigger gid ctxName locale c
    · rw [if_pos ht]
      apply repick_foldl_invariant
      · intro x hx; exact hD x (List.mem_cons_of_mem _ hx)
      · exact ht.2.symm
      · exact hD c (List.mem_cons_self _ _)
    · rw [if_neg ht]
      apply ih acc (fun x hx => hD x (List.mem_cons_of_mem _ hx))
      rcases hex with ⟨c', hc', htrig⟩
      rcases List.mem_cons.mp hc' with rfl | hmem
      · exact absurd htrig ht
      · exact ⟨c', hmem, htrig⟩

lemma repick_foldl_of_no_trigger (gid : String → String → Option String)
    (ctxName locale : String) :
    ∀ (cands : List ClassificationCandidate) (acc : Rat × String × Option String),
      (∀ c ∈ cands, ¬ repickTrigger gid ctxName locale c) →
      cands.foldl (repickStep gid ctxName locale) acc = acc := by
  intro cands
  induction cands with
  | nil => intro acc _; rfl
  | cons c rest ih =>
    intro acc hno
    rw [List.foldl_cons, repickStep_eq, if_neg (hno c (List.mem_cons_self _ _))]
    exact ih acc (fun x hx => hno x (List.mem_cons_of_mem _ hx))

/-- C3: for a `process` call with an active context (and neither the
action-loop nor the slot-filling branch taken, so control reaches the
classification step modelled by `chosenClassification`): if some
classification has score above 0.6 and its rendered `"{domain}.{skill}"`
equals the active context's name, the chosen classification's domain and
skill equal the active context's domain and skill; otherwise the
classifier's top-scoring pick `(score, intent, domain)` is kept unchanged.
The domain oracle is assumed to return an actual domain string on the
listed classifications, and the context an actual domain, since JS would
otherwise render `undefined` into the compared names. -/
theorem chosenClassification_context_biased (gid : String → String → Option String)
    (ctx : ActiveContext) (r : MainNlpRes)
    (hD : ∀ c ∈ r.classifications, (gid r.locale c.intent).isSome = true)
    (hdom : ctx.domain.isSome = true) :
    ((∃ c ∈ r.classifications, repickTrigger gid (contextName ctx) r.locale c) →
      (chosenClassification gid (some ctx) r).2.2 = ctx.domain ∧
      splitHead (chosenClassification gid (some ctx) r).2.1 = splitHead ctx.intent) ∧
    ((∀ c ∈ r.classifications, ¬ repickTrigger gid (contextName ctx) r.locale c) →
      chosenClassification gid (some ctx) r = (r.score, r.intent, r.domain)) := by
  constructor
  · intro hex
    rcases repick_foldl_of_trigger gid (contextName ctx) r.locale r.classifications
      (r.score, r.intent, r.domain) hD hex with ⟨hname, hsome⟩
    have hcc : chosenClassification gid (some ctx) r =
        r.classifications.foldl (repickStep gid (contextName ctx) r.locale)
          (r.score, r.intent, r.domain) := rfl
    rw [hcc]
    rcases append_dot_inj (splitHead_no_dot _) (splitHead_no_dot _) hname with ⟨hd, hs⟩
    refine ⟨?_, hs⟩
    rcases Option.isSome_iff_exists.mp hsome with ⟨a, ha⟩
    rcases Option.isSome_iff_exists.mp hdom with ⟨b, hb⟩
    rw [ha] at hd ⊢
    rw [hb] at hd ⊢
    simpa [jsStr] using hd
  · intro hno
    exact repick_foldl_of_no_trigger gid (contextName ctx) r.locale r.classifications
      (r.score, r.intent, r.domain) hno

/-- A domain oracle for the C3 witness. -/
def gidShopping : String → String → Option String := fun _ _ => some "shopping"

/-- An active context `shopping.list` for the C3 witness. -/
def ctxShoppingList : ActiveContext :=
  { lang := "en-US", slots := [], isInActionLoop := false
    originalUtterance := some "create my shopping list", configDataFilePath := none
    actionName := some "buy", domain := some "shopping", intent := "list.buy"
    entities := [], currentEntities := [], nextAction := none }

/-- A classifier result for the C3 witness: the top pick is an alien
`other.delete`, the alternate `list.delete` (score 0.68) matches the active
context. -/
def mainResRepick : MainNlpRes :=
  { locale := "en-US", answers := []
    classifications := [⟨"list.delete", mkRat 17 25⟩, ⟨"other.delete", mkRat 18 25⟩]
    score := mkRat 18 25, intent := "other.delete", domain := some "todo" }

/-- Witness for the C3 theorem at concrete inputs. -/
theorem chosenClassification_context_biased_witness :
    (chosenClassification gidShopping (some ctxShoppingList) mainResRepick).2.2 =
      ctxShoppingList.domain ∧
    splitHead (chosenClassification gidShopping (some ctxShoppingList) mainResRepick).2.1 =
      splitHead ctxShoppingList.intent :=
  (chosenClassification_context_biased gidShopping ctxShoppingList mainResRepick
      (by decide) (by decide)).1
    ⟨⟨"list.delete", mkRat 17 25⟩, by decide, by decide, by decide⟩

/-! ### Concrete instances used by witnesses and counterexamples -/

/-- Model state after three successful loads. -/
def readyModels : ModelsState :=
  { globalResolversNlp := .containerNlp, skillsResolversNlp := .containerNlp
    mainNlp := .containerNlp }

/-- A plain Brain reply with no next action and no restart. -/
def brainResultBase : BrainResult :=
  { executionTime := 50
    classification :=
      { domain := some "leon", skill := some "greetings"
        action := some "hello", confidence := some 1 }
    action := { next_action := none, loop := false }
    nextAction := none
    core := none
    utterance := some "hello"
    configDataFilePath := none
    slots := [] }

/-- A base environment: English, unmuted, empty oracles, fixed clock. -/
def envBase : Env :=
  { lang := "en-US"
    isMuted := false
    shortCodes := ["en-US"]
    fallbacksFor := fun _ => []
    mainNlpProcess := fun _ =>
      { locale := "en-US", answers := [], classifications := []
        score := 1, intent := "greetings.hello", domain := some "leon" }
    getIntentDomain := fun _ _ => some "leon"
    extractEntities := fun _ _ _ => .ok []
    getMandatorySlots := fun _ => []
    readConfig := fun _ => none
    readGlobalResolver := fun _ _ => none
    globalResolversProcess := fun _ => none
    skillsResolversProcess := fun _ => none
    brainExecute := fun _ => .ok brainResultBase
    tStart := 100
    tEnd := 250 }

/-! ### C5: slot filling with all slots filled -/

lemma getNotFilledSlot_eq_none_of_all_filled {ctx : ActiveContext}
    (h : areSlotsAllFilled ctx = true) : getNotFilledSlot ctx = none := by
  unfold areSlotsAllFilled at h
  unfold getNotFilledSlot
  rw [List.find?_eq_none]
  intro p hp
  rw [List.all_eq_true] at h
  simp [h p hp]

/-- C5: for every `slotFill` call whose active context has a (truthy)
`nextAction` — the condition for `slotFill` to proceed at all — and all of
whose slots are filled, `slotFill` builds an NLU result whose utterance is
the context's `originalUtterance`, whose classification action is the
context's `nextAction`, and whose confidence is 1; it then clears the
active context, hands exactly that NLU result to the Brain executor, and
returns the executor's reply. -/
theorem slotFill_all_slots_filled (env : Env) (st : NLUState) (utterance : String)
    (ctx : ActiveContext) (es : List Entity)
    (hctx : st.conv = some ctx)
    (hna : jsTruthy ctx.nextAction = true)
    (hx : env.extractEntities env.lang ⟨ctx.domain, some (splitHead ctx.intent), env.lang⟩
      (slotFillProbe ctx utterance) = .ok es)
    (hfilled : areSlotsAllFilled ctx = true) :
    (slotFill env st utterance).nluResultObj.utterance = ctx.originalUtterance ∧
    (slotFill env st utterance).nluResultObj.classification.action = ctx.nextAction ∧
    (slotFill env st utterance).nluResultObj.classification.confidence = some 1 ∧
    (slotFill env st utterance).conv = none ∧
    (slotFill env st utterance).trace =
      [.brainExec (slotFill env st utterance).nluResultObj] ∧
    ∀ pd, env.brainExecute (slotFill env st utterance).nluResultObj = .ok pd →
      (slotFill env st utterance).result = .ok (.data pd) := by
  have hns := getNotFilledSlot_eq_none_of_all_filled hfilled
  simp only [slotFill, hctx, hna, Bool.not_true, Bool.false_eq_true, if_false, hx, hns,
    hfilled, if_neg]
  split
  next pd hbr =>
    refine ⟨rfl, rfl, rfl, rfl, rfl, ?_⟩
    intro pd2 h2
    have h3 := hbr.symm.trans h2
    cases h3
    rfl
  next e hbr =>
    refine ⟨rfl, rfl, rfl, rfl, rfl, ?_⟩
    intro pd2 h2
    exact absurd (hbr.symm.trans h2) (by simp)

/-- An active context with one filled slot and a pending next action. -/
def ctxSlotsFilled : ActiveContext :=
  { lang := "en-US"
    slots := [("item",
      { expectedEntity := "product", pickedQuestion := "which product?"
        isFilled := true, value := some "milk" })]
    isInActionLoop := false
    originalUtterance := some "add to my shopping list"
    configDataFilePath := none
    actionName := some "addItem"
    domain := some "shopping"
    intent := "list.addItem"
    entities := []
    currentEntities := []
    nextAction := some "addItem" }

/-- Instance state holding the filled-slots context. -/
def stSlotsFilled : NLUState :=
  { models := readyModels, conv := some ctxSlotsFilled
    nluResultObj := defaultNluResultObj }

/-- Witness for the C5 theorem at concrete inputs. -/
theorem slotFill_all_slots_filled_witness :
    (slotFill envBase stSlotsFilled "milk").conv = none ∧
    (slotFill envBase stSlotsFilled "milk").nluResultObj.utterance =
      ctxSlotsFilled.originalUtterance ∧
    (slotFill envBase stSlotsFilled "milk").nluResultObj.classification.action =
      ctxSlotsFilled.nextAction :=
  have h := slotFill_all_slots_filled envBase stSlotsFilled "milk" ctxSlotsFilled []
    rfl (by decide) rfl (by decide)
  ⟨h.2.2.2.1, h.1, h.2.1⟩

/-! ### C6: action loop, neither expected entity nor resolver matched -/

/-- C6: for every `handleActionLoop` call in which the preparation computed
`hasMatchingEntity = false` and `hasMatchingResolver = false`, the handler
speaks the out-of-topic phrase, clears the active context, re-enters
`process` with the same utterance, and (when the re-entered dispatch
settles) resolves `null`, without itself executing the Brain: the only
Brain executions in its trace are those of the re-entered dispatch. -/
theorem handleActionLoop_out_of_topic (env : Env)
    (proc : NLUState → String → ProcOut) (st : NLUState) (utterance : String)
    (ctx : ActiveContext) (nlu : NLUResult) (v : ProcValue)
    (hprep : actionLoopPrepare env st utterance = .ok (ctx, nlu, false, false))
    (hres : (proc ⟨st.models, none, nlu⟩ utterance).outcome = .resolved v) :
    (handleActionLoop env proc st utterance).outcome = .resolved .nullValue ∧
    (handleActionLoop env proc st utterance).state =
      (proc ⟨st.models, none, nlu⟩ utterance).state ∧
    (handleActionLoop env proc st utterance).trace =
      .talk "random_context_out_of_topic" :: .reenter utterance ::
        (proc ⟨st.models, none, nlu⟩ utterance).trace ∧
    ∀ x, Event.brainExec x ∈ (handleActionLoop env proc st utterance).trace →
      Event.brainExec x ∈ (proc ⟨st.models, none, nlu⟩ utterance).trace := by
  simp only [handleActionLoop, hprep, handleActionLoopDecision, Bool.not_false,
    Bool.and_self, if_pos, hres, resolveAwaitNull]
  refine ⟨trivial, trivial, trivial, ?_⟩
  intro x hx
  rcases List.mem_cons.mp hx with h1 | hx2
  · cases h1
  rcases List.mem_cons.mp hx2 with h2 | hx3
  · cases h2
  exact hx3

/-- An active context in an action loop expecting the `number` entity. -/
def ctxGuessLoop : ActiveContext :=
  { lang := "en-US"
    slots := []
    isInActionLoop := true
    originalUtterance := some "let us play guess the number"
    configDataFilePath := none
    actionName := some "guess"
    domain := some "games"
    intent := "game.guess"
    entities := []
    currentEntities := []
    nextAction := none }

/-- A skill config declaring `loop.expected_item = {number, entity}` for the
action `guess`. -/
def cfgGuess : SkillConfig :=
  { actions := [("guess",
      { loop := some { expected_item := some { name := "number", itemType := "entity" } }
        slots := [] })]
    resolvers := [] }

/-- Environment whose config read yields the guess-loop config and whose
NER finds nothing. -/
def envGuess : Env := { envBase with readConfig := fun _ => some cfgGuess }

/-- Instance state inside the guess action loop. -/
def stGuessLoop : NLUState :=
  { models := readyModels, conv := some ctxGuessLoop
    nluResultObj := defaultNluResultObj }

/-- A trivial reentrant dispatch for the C6 witness. -/
def procTrivial : NLUState → String → ProcOut :=
  fun s _ => ⟨.resolved .emptyObj, s, []⟩

/-- The NLU result the action-loop preparation builds in the C6 witness
run. -/
def nluGuess : NLUResult :=
  { defaultNluResultObj with
    slots := some []
    utterance := some "seven"
    configDataFilePath := some ⟨some "games", some "game", "en-US"⟩
    classification :=
      { domain := some "games", skill := some "game"
        action := some "guess", confidence := some 1 } }

/-- Witness for the C6 theorem at concrete inputs. -/
theorem handleActionLoop_out_of_topic_witness :
    (handleActionLoop envGuess procTrivial stGuessLoop "seven").outcome =
      .resolved .nullValue ∧
    (handleActionLoop envGuess procTrivial stGuessLoop "seven").trace =
      [.talk "random_context_out_of_topic", .reenter "seven"] :=
  have h := handleActionLoop_out_of_topic envGuess procTrivial stGuessLoop "seven"
    ctxGuessLoop nluGuess .emptyObj (by decide) rfl
  ⟨h.1, h.2.2.1⟩

/-! ### C10: the unguarded expected_item access -/

lemma actionLoopMatch_error_resolver (env : Env) (cfg : SkillConfig)
    (skillName : String) (item : ExpectedItem) (nlu2 : NLUResult) (utterance : String) :
    ∀ e nlu, actionLoopMatch env cfg skillName item nlu2 utterance = .error (e, nlu) →
      e = ActionLoopError.resolverThrow := by
  intro e nlu h
  unfold actionLoopMatch at h
  repeat' split at h
  all_goals (try (rcases hg : jsGet cfg.resolvers item.name with _ | ri <;>
    rw [hg] at h <;> simp only [] at h))
  all_goals (try (rcases hg2 : env.readGlobalResolver env.lang item.name with _ | ri2 <;>
    rw [hg2] at h <;> simp only [] at h))
  all_goals (repeat' split at h)
  all_goals simp_all

/-- C10: with an active context, successful NER extraction and a readable
config, the unguarded `actions[action].loop.expected_item` access of
`handleActionLoop` (modelled by `expectedItemAccess`) succeeds exactly when
the skill config declares a `loop.expected_item` for the context's action
(spec invariant 2).  Under that precondition the preparation can no longer
fail before entity/resolver matching — any remaining throw is inside the
resolver matching — and without it the preparation throws precisely at the
access. -/
theorem handleActionLoop_expected_item_safety (env : Env) (st : NLUState)
    (utterance : String) (ctx : ActiveContext) (cfg : SkillConfig) (es : List Entity)
    (hctx : st.conv = some ctx)
    (hx : env.extractEntities env.lang ⟨ctx.domain, some (splitHead ctx.intent), env.lang⟩
      (actionLoopProbe env ctx utterance) = .ok es)
    (hcfg : env.readConfig ⟨ctx.domain, some (splitHead ctx.intent), env.lang⟩ = some cfg) :
    ((expectedItemAccess cfg (splitSecond ctx.intent)).isSome = true →
      ∀ e nlu, actionLoopPrepare env st utterance = .error (e, nlu) →
        e = ActionLoopError.resolverThrow) ∧
    (expectedItemAccess cfg (splitSecond ctx.intent) = none →
      actionLoopPrepare env st utterance =
        .error (.expectedItemThrow,
          nluWithEntities (actionLoopProbe env ctx utterance) es)) := by
  constructor
  · intro haccess e nlu h
    rcases Option.isSome_iff_exists.mp haccess with ⟨item, hitem⟩
    have hitem2 : expectedItemAccess cfg
        (nluWithEntities (actionLoopProbe env ctx utterance) es).classification.action =
        some item := hitem
    simp only [actionLoopPrepare, hctx, hx, hcfg] at h
    rw [hitem2] at h
    simp only [] at h
    rcases ham : actionLoopMatch env cfg (splitHead ctx.intent) item
        (nluWithEntities (actionLoopProbe env ctx utterance) es) utterance with
      epair | ok3
    · rw [ham] at h
      rcases epair with ⟨e2, nlu2⟩
      have he := actionLoopMatch_error_resolver env cfg (splitHead ctx.intent) item
        (nluWithEntities (actionLoopProbe env ctx utterance) es) utterance e2 nlu2 ham
      cases h
      exact he
    · rcases ok3 with ⟨nlu3, hasME, hasMR⟩
      rw [ham] at h
      cases h
  · intro haccess
    have haccess2 : expectedItemAccess cfg
        (nluWithEntities (actionLoopProbe env ctx utterance) es).classification.action =
        none := haccess
    simp only [actionLoopPrepare, hctx, hx, hcfg]
    rw [haccess2]

/-- A skill config whose `guess` action declares no `loop`. -/
def cfgNoLoop : SkillConfig :=
  { actions := [("guess", { loop := none, slots := [] })], resolvers := [] }

/-- Environment whose config read yields the loop-less config. -/
def envNoLoop : Env := { envBase with readConfig := fun _ => some cfgNoLoop }

/-- Instance state inside the guess action loop against the loop-less
config. -/
def stNoLoop : NLUState :=
  { models := readyModels, conv := some ctxGuessLoop
    nluResultObj := defaultNluResultObj }

/-- Witness for the C10 theorem at concrete inputs: without the declared
`loop.expected_item` the preparation throws at the access. -/
theorem handleActionLoop_expected_item_safety_witness :
    actionLoopPrepare envNoLoop stNoLoop "seven" =
      .error (.expectedItemThrow,
        nluWithEntities (actionLoopProbe envNoLoop ctxGuessLoop "seven") []) :=
  (handleActionLoop_expected_item_safety envNoLoop stNoLoop "seven" ctxGuessLoop
    cfgNoLoop [] rfl rfl rfl).2 (by decide)

/-! ### C9: nluProcessingTime accounting

The normal-path result `{processingTime, ...processedData, nluProcessingTime}`
is the only place a `.finished` value is built; the handlers never produce
one, so the accounting identity holds for every turn that resolves with
one. -/

lemma resolveAwaitNull_no_finished (o : Outcome) (pt npt : Int) (pd : BrainResult) :
    resolveAwaitNull o ≠ .resolved (.finished pt npt pd) := by
  cases o <;> simp [resolveAwaitNull]

lemma resolveCaughtNull_no_finished (o : Outcome) (pt npt : Int) (pd : BrainResult) :
    resolveCaughtNull o ≠ .resolved (.finished pt npt pd) := by
  cases o <;> simp [resolveCaughtNull]

lemma awaitOrUnsettle_finished (o : Outcome) (pt npt : Int) (pd : BrainResult)
    (h : awaitOrUnsettle o = .resolved (.finished pt npt pd)) :
    o = .resolved (.finished pt npt pd) := by
  cases o <;> simp_all [awaitOrUnsettle]

lemma awaitCatchEmpty_finished (o : Outcome) (pt npt : Int) (pd : BrainResult)
    (h : awaitCatchEmpty o = .resolved (.finished pt npt pd)) :
    o = .resolved (.finished pt npt pd) := by
  cases o <;> simp_all [awaitCatchEmpty]

lemma handleActionLoopDecision_no_finished (env : Env)
    (proc : NLUState → String → ProcOut) (st : NLUState) (utterance : String)
    (ctx : ActiveContext) (nlu : NLUResult) (hasME hasMR : Bool)
    (pt npt : Int) (pd : BrainResult) :
    (handleActionLoopDecision env proc st utterance ctx nlu hasME hasMR).outcome ≠
      .resolved (.finished pt npt pd) := by
  intro h
  unfold handleActionLoopDecision at h
  repeat' split at h
  all_goals first
    | exact resolveAwaitNull_no_finished _ pt npt pd h
    | exact resolveCaughtNull_no_finished _ pt npt pd h
    | simp_all

lemma handleActionLoop_no_finished (env : Env) (proc : NLUState → String → ProcOut)
    (st : NLUState) (utterance : String) (pt npt : Int) (pd : BrainResult) :
    (handleActionLoop env proc st utterance).outcome ≠
      .resolved (.finished pt npt pd) := by
  intro h
  unfold handleActionLoop at h
  split at h
  · simp at h
  · exact handleActionLoopDecision_no_finished _ _ _ _ _ _ _ _ pt npt pd h

lemma handleSlotFilling_no_finished (env : Env) (proc : NLUState → String → ProcOut)
    (st : NLUState) (utterance : String) (pt npt : Int) (pd : BrainResult) :
    (handleSlotFilling env proc st utterance).outcome ≠
      .resolved (.finished pt npt pd) := by
  intro h
  unfold handleSlotFilling at h
  simp only [] at h
  rcases hsf : (slotFill env st utterance).result with u | v
  · rw [hsf] at h
    simp_all
  · rw [hsf] at h
    cases v with
    | nullValue => exact resolveAwaitNull_no_finished _ pt npt pd h
    | emptySentinel => simp_all
    | data pd2 =>
      simp only [] at h
      repeat' split at h
      all_goals simp_all

lemma processTail_finished (env : Env) (proc : NLUState → String → ProcOut)
    (models : ModelsState) (conv : Option ActiveContext) (nlu1 : NLUResult)
    (utterance intent skillName : String) (pt npt : Int) (pd : BrainResult)
    (h : (processTail env proc models conv nlu1 utterance intent skillName).outcome =
      .resolved (.finished pt npt pd)) :
    npt = pt - pd.executionTime ∧ pt = env.tEnd - env.tStart := by
  unfold processTail at h
  simp only [] at h
  repeat' split at h
  all_goals first
    | exact absurd (awaitCatchEmpty_finished _ pt npt pd h)
        (handleSlotFilling_no_finished _ _ _ _ pt npt pd)
    | (simp only [Outcome.resolved.injEq, ProcValue.finished.injEq] at h
       rcases h with ⟨h1, h2, h3⟩
       constructor
       · rw [← h2, ← h1, h3]
       · rw [← h1])
    | simp at h

lemma processMain_finished (env : Env) (proc : NLUState → String → ProcOut)
    (st : NLUState) (utterance : String) (pt npt : Int) (pd : BrainResult)
    (h : (processMain env proc st utterance).outcome = .resolved (.finished pt npt pd)) :
    npt = pt - pd.executionTime ∧ pt = env.tEnd - env.tStart := by
  unfold processMain at h
  simp only [] at h
  repeat' split at h
  all_goals first
    | exact processTail_finished _ _ _ _ _ _ _ _ pt npt pd h
    | simp at h

/-- C9: whenever a `process` turn resolves with the normal-path object
`{processingTime, ...processedData, nluProcessingTime}`, the reported
`nluProcessingTime` equals `processingTime` minus the Brain's
`executionTime`, and `processingTime` is the difference between the turn's
return-time and entry-time clock readings — i.e. `nluProcessingTime`
excludes the Brain's execution time. -/
theorem process_nluProcessingTime (env : Env) (fuel : Nat) (st : NLUState)
    (utterance : String) (pt npt : Int) (pd : BrainResult)
    (h : (process env fuel st utterance).outcome = .resolved (.finished pt npt pd)) :
    npt = pt - pd.executionTime ∧ pt = env.tEnd - env.tStart := by
  cases fuel with
  | zero => simp [process] at h
  | succ n =>
    unfold process at h
    simp only [] at h
    split at h
    · simp at h
    · split at h
      · split at h
        · exact absurd (awaitOrUnsettle_finished _ pt npt pd h)
            (handleActionLoop_no_finished _ _ _ _ pt npt pd)
        · split at h
          · exact absurd (awaitCatchEmpty_finished _ pt npt pd h)
              (handleSlotFilling_no_finished _ _ _ _ pt npt pd)
          · exact processMain_finished _ _ _ _ pt npt pd h
      · exact processMain_finished _ _ _ _ pt npt pd h

/-- Instance state with models loaded and no active context. -/
def stReady : NLUState :=
  { models := readyModels, conv := none, nluResultObj := defaultNluResultObj }

/-- Witness for the C9 theorem: a concrete normal-path turn. -/
theorem process_nluProcessingTime_witness :
    (100 : Int) = 150 - brainResultBase.executionTime ∧
    (150 : Int) = envBase.tEnd - envBase.tStart :=
  process_nluProcessingTime envBase 1 stReady "hello" 150 100 brainResultBase (by decide)

/-! ### C7: intent None with failed fallback -/

/-- Reduction of a fueled `process` turn to the classify-and-dispatch path
when models are loaded and no pre-NLU context branch applies. -/
lemma process_succ_eq_main (env : Env) (fuel : Nat) (st : NLUState) (utterance : String)
    (hm : hasNlpModels st.models = true)
    (hpre : contextPreBranch st.conv = false) :
    process env (fuel + 1) st utterance =
      ⟨(processMain env (process env fuel) st utterance).outcome,
       (processMain env (process env fuel) st utterance).state,
       .spacyMerge utterance :: (processMain env (process env fuel) st utterance).trace⟩ := by
  unfold process
  simp only [hm, Bool.not_true, Bool.false_eq_true, if_false]
  cases hc : st.conv with
  | none => rfl
  | some ctx =>
    unfold contextPreBranch at hpre
    rw [hc] at hpre
    simp only [Bool.or_eq_false_iff] at hpre
    have h2 : ¬ ctx.slots.length > 0 := of_decide_eq_false hpre.2
    simp only [hpre.1, Bool.false_eq_true, if_false, h2, if_neg]

/-- C7 counterexample: with a muted Brain, models loaded, no active
context, chosen intent `None`, a supported current-language locale, and an
empty fallback table, `process` resolves `{processingTime, message: "Intent
not found"}` but speaks nothing — the `random_unknown_intents` phrase is
guarded by `!BRAIN.isMuted` (lines 566-572), refuting the unconditional
"speaks the random_unknown_intents phrase". -/
def envNoneMuted : Env :=
  { envBase with
    isMuted := true
    mainNlpProcess := fun _ =>
      { locale := "en-US", answers := [], classifications := []
        score := 1, intent := "None", domain := none } }

/-- C7 counterexample theorem (see `envNoneMuted`). -/
theorem process_unknown_intent_muted_counterexample :
    (process envNoneMuted 1 stReady "zzz").outcome =
      .resolved (.intentNotFound 150 "Intent not found") ∧
    (process envNoneMuted 1 stReady "zzz").trace = [.spacyMerge "zzz"] := by
  constructor <;> decide

/-- C7 (amended): with models loaded, no pre-NLU context branch, chosen
intent `None`, supported locale equal to the current language, and a failed
fallback, `process` resolves `{processingTime, message: "Intent not
found"}` with no classification path taken and no Brain execution; unless
the Brain is muted it speaks the `random_unknown_intents` phrase and clears
the typing indicator (when muted, nothing is spoken). -/
theorem process_intent_not_found (env : Env) (fuel : Nat) (st : NLUState)
    (utterance : String)
    (hm : hasNlpModels st.models = true)
    (hpre : contextPreBranch st.conv = false)
    (hnone : (chosenClassification env.getIntentDomain st.conv
      (env.mainNlpProcess utterance)).2.1 = "None")
    (hloc : env.shortCodes.contains (env.mainNlpProcess utterance).locale = true)
    (hlang : env.lang = (env.mainNlpProcess utterance).locale)
    (hfb : fallback (builtNluResult env.getIntentDomain st.conv utterance
        (env.mainNlpProcess utterance))
      (env.fallbacksFor (env.mainNlpProcess utterance).locale) = none) :
    (process env (fuel + 1) st utterance).outcome =
      .resolved (.intentNotFound (env.tEnd - env.tStart) "Intent not found") ∧
    (process env (fuel + 1) st utterance).trace =
      .spacyMerge utterance :: (if env.isMuted then [] else
        [Event.talk "random_unknown_intents", Event.isTyping false]) ∧
    ∀ x, Event.brainExec x ∉ (process env (fuel + 1) st utterance).trace := by
  have hred := process_succ_eq_main env fuel st utterance hm hpre
  have hmain : processMain env (process env fuel) st utterance =
      ⟨.resolved (.intentNotFound (env.tEnd - env.tStart) "Intent not found"),
       ⟨st.models, st.conv, builtNluResult env.getIntentDomain st.conv utterance
         (env.mainNlpProcess utterance)⟩,
       if env.isMuted then [] else
         [Event.talk "random_unknown_intents", Event.isTyping false]⟩ := by
    unfold processMain
    simp only [hnone, hloc, Bool.not_true, Bool.false_eq_true, if_false, ne_eq,
      hlang, not_true_eq_false, if_true, hfb]
  rw [hred, hmain]
  refine ⟨rfl, rfl, ?_⟩
  intro x hx
  rcases List.mem_cons.mp hx with h1 | h2
  · cases h1
  · cases hmu : env.isMuted with
    | true => rw [hmu] at h2; simp at h2
    | false =>
      rw [hmu] at h2
      rcases List.mem_cons.mp h2 with h3 | h4
      · cases h3
      · rcases List.mem_cons.mp h4 with h5 | h6
        · cases h5
        · simp at h6

/-- Environment with chosen intent `None`, an empty fallback table and an
unmuted Brain. -/
def envNoneUnmuted : Env :=
  { envBase with
    mainNlpProcess := fun _ =>
      { locale := "en-US", answers := [], classifications := []
        score := 1, intent := "None", domain := none } }

/-- Witness for the amended C7 theorem at concrete inputs. -/
theorem process_intent_not_found_witness :
    (process envNoneUnmuted 1 stReady "asdf").outcome =
      .resolved (.intentNotFound (envNoneUnmuted.tEnd - envNoneUnmuted.tStart)
        "Intent not found") :=
  (process_intent_not_found envNoneUnmuted 0 stReady "asdf"
    rfl rfl rfl rfl rfl (by decide)).1

/-! ### C1: fallback match, confidence and entities -/

lemma fallback_confidence_one {nlu : NLUResult} {fbs : List FallbackEntry}
    {r : NLUResult} (h : fallback nlu fbs = some r) :
    r.classification.confidence = some 1 := by
  unfold fallback at h
  cases hu : nlu.utterance with
  | none => rw [hu] at h; cases h
  | some u =>
    rw [hu] at h
    rcases fallbackLoop_sound (utteranceWords u) nlu fbs [] (by simp) r h with
      ⟨fb, _, hre, _⟩
    rw [hre]
    rfl

lemma routeSlotFilling_no_mandatory (env : Env) (conv : Option ActiveContext)
    (nlu : NLUResult) (intent : String)
    (h : env.getMandatorySlots intent = []) :
    routeSlotFilling env conv nlu intent = .ok (false, conv, []) := by
  unfold routeSlotFilling
  rw [h]
  rfl

/-- Every Brain execution of the dispatcher tail carries the confidence of
the NLU result it was entered with, when no slot routing and no
already-filled-slots branch intervenes (the tail changes entities and the
config path, never the classification). -/
lemma processTail_brainExec_confidence (env : Env) (proc : NLUState → String → ProcOut)
    (models : ModelsState) (conv : Option ActiveContext) (nlu1 : NLUResult)
    (utterance intent skillName : String)
    (hconf : nlu1.classification.confidence = some 1)
    (hslots : env.getMandatorySlots intent = [])
    (hcs : (match conv with
      | some c => decide (c.slots.length > 0)
      | none => false) = false) :
    ∀ x, Event.brainExec x ∈
        (processTail env proc models conv nlu1 utterance intent skillName).trace →
      x.classification.confidence = some 1 := by
  intro x hx
  unfold processTail at hx
  simp only [] at hx
  rw [routeSlotFilling_no_mandatory env conv _ intent hslots] at hx
  simp only [hcs] at hx
  repeat' split at hx
  all_goals simp_all

/-- C1 (amended): for every turn in which the main classifier returns
intent `None` and the fallback matcher finds a match (models loaded, no
pre-NLU context branch, supported locale equal to the current language, no
mandatory slots for the `None` intent), every NLU result handed to the
Brain has `classification.confidence = 1`.  The fallback does set
`entities = []`, but `process` afterwards overwrites the entities with the
NER extraction result and the active context's entities (lines 605, 656),
so the executed NLU result's entities need not be empty — see the
counterexample. -/
theorem process_fallback_confidence (env : Env) (fuel : Nat) (st : NLUState)
    (utterance : String) (fbr : NLUResult)
    (hm : hasNlpModels st.models = true)
    (hpre : contextPreBranch st.conv = false)
    (hnone : (chosenClassification env.getIntentDomain st.conv
      (env.mainNlpProcess utterance)).2.1 = "None")
    (hloc : env.shortCodes.contains (env.mainNlpProcess utterance).locale = true)
    (hlang : env.lang = (env.mainNlpProcess utterance).locale)
    (hfb : fallback (builtNluResult env.getIntentDomain st.conv utterance
        (env.mainNlpProcess utterance))
      (env.fallbacksFor (env.mainNlpProcess utterance).locale) = some fbr)
    (hslots : env.getMandatorySlots "None" = []) :
    ∀ x, Event.brainExec x ∈ (process env (fuel + 1) st utterance).trace →
      x.classification.confidence = some 1 := by
  have hred := process_succ_eq_main env fuel st utterance hm hpre
  have hmain : processMain env (process env fuel) st utterance =
      processTail env (process env fuel) st.models st.conv fbr utterance
        "None" (splitHead "None") := by
    unfold processMain
    simp only [hnone, hloc, Bool.not_true, Bool.false_eq_true, if_false, ne_eq,
      hlang, not_true_eq_false, if_true, hfb]
  have hcs : (match st.conv with
      | some c => decide (c.slots.length > 0)
      | none => false) = false := by
    cases hc : st.conv with
    | none => rfl
    | some c =>
      unfold contextPreBranch at hpre
      rw [hc] at hpre
      simp only [Bool.or_eq_false_iff] at hpre
      exact hpre.2
  intro x hx
  rw [hred] at hx
  rcases List.mem_cons.mp hx with h1 | h2
  · cases h1
  · rw [hmain] at h2
    exact processTail_brainExec_confidence env (process env fuel) st.models st.conv fbr
      utterance "None" (splitHead "None") (fallback_confidence_one hfb) hslots
      hcs x h2

/-- Environment whose classifier yields `None`, whose fallback table holds
a matching entry, and whose NER extraction finds one entity. -/
def envFallbackEntities : Env :=
  { envBase with
    mainNlpProcess := fun _ =>
      { locale := "en-US", answers := [], classifications := []
        score := 1, intent := "None", domain := none }
    fallbacksFor := fun _ =>
      [{ words := ["hello"], domain := "greetings", skill := "hello", action := "run" }]
    extractEntities := fun _ _ _ => .ok [{ entity := "product", value := "milk" }] }

/-- C1 counterexample: on a fallback-matched turn (the fallback finds the
`greetings.hello` entry for `"hello"`), the NLU result handed to the Brain
has the NER-extracted entity list `[product]`, not `[]` — the fallback's
empty entity list is overwritten by `this.nluResultObj.entities =
await this.ner.extractEntities(...)` (line 605) before execution. -/
theorem process_fallback_entities_counterexample :
    fallback (builtNluResult envFallbackEntities.getIntentDomain none "hello"
        (envFallbackEntities.mainNlpProcess "hello"))
      (envFallbackEntities.fallbacksFor "en-US") ≠ none ∧
    anyBrainExecNonemptyEntities (process envFallbackEntities 1 stReady "hello").trace
      = true := by
  constructor <;> decide

/-- The NLU result the Brain executes in the concrete fallback-matched
run. -/
def nluFallbackExec : NLUResult :=
  { utterance := some "hello"
    currentEntities := [{ entity := "product", value := "milk" }]
    entities := [{ entity := "product", value := "milk" }]
    currentResolvers := []
    resolvers := []
    slots := none
    configDataFilePath := some { domain := some "greetings", skill := some "hello", lang := "en-US" }
    answers := []
    classification :=
      { domain := some "greetings", skill := some "hello"
        action := some "run", confidence := some 1 } }

/-- The fallback hit of the concrete fallback-matched run. -/
def fbrHello : NLUResult :=
  fallbackHit (builtNluResult envFallbackEntities.getIntentDomain none "hello"
      (envFallbackEntities.mainNlpProcess "hello"))
    { words := ["hello"], domain := "greetings", skill := "hello", action := "run" }

/-- Witness for the amended C1 theorem at concrete inputs. -/
theorem process_fallback_confidence_witness :
    nluFallbackExec.classification.confidence = some 1 :=
  process_fallback_confidence envFallbackEntities 0 stReady "hello" fbrHello
    rfl rfl rfl rfl rfl (by decide) rfl nluFallbackExec (by decide)

end Leon
